import Mathlib

/-!
Verification development for the core of `spreadsheet-ods`:
the streaming XML emitter (`src/io/xmlwriter.rs`) and the sparse-grid
table encoder (`src/io/write.rs`).

The emitter is embedded at the level of its internal state
(output chunks, buffer, open-element stack, pending-element flag).
The grid encoder is embedded at the level of the call sequence it issues
to the emitter: every `xml_out.elem/empty/attr/.../end_elem` call of the
Rust source becomes one `XE` event, in source order.  Numeric attribute
values (`u32` rendered through `Display`) are carried as `Nat` in a
dedicated `XE.attrNat` event whether the source used `attr` or
`attr_esc`, since escaping a digit string is the identity.
-/

namespace SpreadsheetOds

/-! ### The streaming XML emitter, `src/io/xmlwriter.rs`

Embedded in the `check_xml` configuration: the element stack is tracked
and contract violations, which panic in the original, are `Except.error`
results here. -/

inductive Opn where
  | pnone
  | pelem
  | pempty
  deriving DecidableEq, Repr

structure XmlWriter where
  /-- chunks handed to the underlying sink by `write_buf` -/
  written : List String
  buf : String
  stack : List String
  opn : Opn
  deriving DecidableEq, Repr

namespace XmlWriter

def new : XmlWriter := { written := [], buf := "", stack := [], opn := .pnone }

/-- `fn escape(&mut self, text: &str, ident: bool)`, as its action on the
buffer, recursing over the characters of `text`. -/
def escapeList (buf : String) : List Char → Bool → String
  | [], _ => buf
  | c :: cs, ident =>
    let buf2 :=
      if c = '"' then buf ++ "&quot;"
      else if c = '\'' then buf ++ "&apos;"
      else if c = '&' then buf ++ "&amp;"
      else if c = '<' then buf ++ "&lt;"
      else if c = '>' then buf ++ "&gt;"
      else if c = '\\' && ident then (buf.push '\\').push '\\'
      else buf.push c
    escapeList buf2 cs ident

def escape (w : XmlWriter) (text : String) (ident : Bool) : XmlWriter :=
  { w with buf := escapeList w.buf text.data ident }

/-- `fn close_elem`: finalize a pending start tag (`>` or `/>`) and flush. -/
def close_elem (w : XmlWriter) : XmlWriter :=
  let b :=
    match w.opn with
    | .pnone => w.buf
    | .pelem => w.buf ++ ">"
    | .pempty => w.buf ++ "/>"
  { written := w.written ++ [b], buf := "", stack := w.stack, opn := .pnone }

/-- `fn elem(&mut self, name: &str)` -/
def elem (w : XmlWriter) (name : String) : XmlWriter :=
  let w := w.close_elem
  { w with stack := w.stack ++ [name], buf := w.buf ++ "<" ++ name, opn := .pelem }

/-- `fn empty(&mut self, name: &str)` -/
def empty (w : XmlWriter) (name : String) : XmlWriter :=
  let w := w.close_elem
  { w with buf := w.buf ++ "<" ++ name, opn := .pempty }

/-- `fn attr(&mut self, name, value)`: panics (here: errors) when no
element start tag is pending; otherwise appends ` name="value"` with the
value copied verbatim. -/
def attr (w : XmlWriter) (name value : String) : Except String XmlWriter :=
  if w.opn = Opn.pnone then
    .error "Attempted to write attr to elem, when no elem was opened"
  else
    .ok { w with buf := w.buf ++ " " ++ name ++ "=\"" ++ value ++ "\"" }

/-- `fn attr_esc(&mut self, name, value)` -/
def attr_esc (w : XmlWriter) (name value : String) : Except String XmlWriter :=
  if w.opn = Opn.pnone then
    .error "Attempted to write attr to elem, when no elem was opened"
  else
    .ok { w with buf :=
            (escapeList ((escapeList (w.buf ++ " ") name.data true) ++ "=\"")
              value.data false) ++ "\"" }

/-- `fn text(&mut self, text)`: unescaped text, copied verbatim. -/
def text (w : XmlWriter) (s : String) : XmlWriter :=
  let w := w.close_elem
  { w with buf := w.buf ++ s }

/-- `fn text_esc(&mut self, text)` -/
def text_esc (w : XmlWriter) (s : String) : XmlWriter :=
  let w := w.close_elem
  { w with buf := escapeList w.buf s.data false }

/-- `fn end_elem(&mut self, name)`: close an element; the name must match
the top of the stack (panic, here error, otherwise). -/
def end_elem (w : XmlWriter) (name : String) : Except String XmlWriter :=
  let w := w.close_elem
  match w.stack.getLast? with
  | some test =>
    if name ≠ test then
      .error "Attempted to close elem with mismatched name"
    else
      .ok { w with stack := w.stack.dropLast,
                   buf := w.buf ++ "</" ++ name ++ ">" }
  | none => .error "Attempted to close an elem, when none was open"

/-- `fn close(&mut self)`: final flush; fails when open elements remain. -/
def close (w : XmlWriter) : Except String XmlWriter :=
  let w2 : XmlWriter := { w with written := w.written ++ [w.buf], buf := "" }
  if w2.stack.isEmpty then .ok w2
  else .error "Attempted to close the xml, but there are open elements on the stack"

end XmlWriter

/-! ### Claim-side description of the escaping rule (spec §4.1) -/

/-- The escaping table as the spec states it: `&`→`&amp;`, `<`→`&lt;`,
`>`→`&gt;`, `"`→`&quot;`, `'`→`&apos;`, identifier mode doubles
backslashes, everything else is unchanged. -/
def escapeCharSpec (c : Char) (ident : Bool) : String :=
  if c = '&' then "&amp;"
  else if c = '<' then "&lt;"
  else if c = '>' then "&gt;"
  else if c = '"' then "&quot;"
  else if c = '\'' then "&apos;"
  else if ident = true ∧ c = '\\' then "\\\\"
  else String.singleton c

/-! ### Emitter events

The grid encoder of `src/io/write.rs` is embedded as the sequence of
calls it issues to the emitter; one constructor per emitter method used.
`attrNat` stands for `attr`/`attr_esc` applied to a `u32` rendered
through `Display`. -/

/-- Opaque foreign XML fragment (spec §9): a generic tagged tree that the
core only ever copies verbatim through `write_xmltag`. -/
inductive XmlTag where
  | node (name : String) (attrs : List (String × String)) (content : List XmlTag)
    (txt : List String)

def XmlTag.name : XmlTag → String
  | .node n _ _ _ => n

inductive XE where
  | elem (name : String)
  | empty (name : String)
  | attr (name value : String)
  | attrEsc (name value : String)
  | attrNat (name : String) (value : Nat)
  | text (s : String)
  | textEsc (s : String)
  | textStr (s : String)
  | elemTextEsc (name t : String)
  | endElem (name : String)
  /-- a full `write_xmltag(tag, xml_out)` passthrough of a foreign tree -/
  | xmlTag (t : XmlTag)

/-! ### Data model (spec §3, backing `src/io/write.rs`) -/

inductive Visibility where
  | visible
  | collapsed
  | filtered
  deriving DecidableEq, Repr

/-- Modelled from the spec: the `Display` text of a visibility tri-state;
only the comparison with `Visible` matters to the encoder. -/
def Visibility.display : Visibility → String
  | .visible => "visible"
  | .collapsed => "collapse"
  | .filtered => "filter"

/-- Modelled from the spec: `crate::refs::CellRange`, an axis-aligned
rectangle given by its origin and its inclusive end corner, with
invariant `to_row ≥ row`, `to_col ≥ col` (spec §3). -/
structure CellRange where
  row : Nat
  col : Nat
  to_row : Nat
  to_col : Nat
  deriving DecidableEq, Repr

namespace CellRange

/-- Modelled from the spec: membership of `(row, col)` in the rectangle. -/
def containsB (s : CellRange) (r c : Nat) : Bool :=
  s.row ≤ r && r ≤ s.to_row && s.col ≤ c && c ≤ s.to_col

/-- Modelled from the spec: a range is out-looped once its whole extent is
strictly before `(row, col)` in row-major order, so it "cannot include any
future cell at or after `(row, col)`" (spec §4.2). -/
def out_loopedB (s : CellRange) (r c : Nat) : Bool :=
  s.to_row < r || (s.to_row = r && s.to_col < c)

/-- Modelled from the spec: the coverage rectangle
`[r, r+R) × [c, c+C)` of a span of row-span `R`, col-span `C` at origin
`(r, c)` (spec §8). -/
def origin_span (r c rowSpan colSpan : Nat) : CellRange :=
  { row := r, col := c, to_row := r + rowSpan - 1, to_col := c + colSpan - 1 }

end CellRange

/-- `check_hidden` (`write.rs`): is the cell hidden, and if yes how many
more columns are hit. -/
def check_hidden (ranges : List CellRange) (row col : Nat) : Bool × Nat :=
  match ranges.find? (fun s => s.containsB row col) with
  | some found => (true, found.to_col - col)
  | none => (false, 0)

/-- `remove_outlooped` (`write.rs`): drop every range that is out-looped. -/
def remove_outlooped (ranges : List CellRange) (row col : Nat) : List CellRange :=
  ranges.filter (fun s => !s.out_loopedB row col)

/-- Cell value. Externally formatted payloads (float display, chrono
datetime format, duration format — all outside `src/`) are modelled from
the spec as already-resolved display strings carried in the constructor
(spec §1 treats value formatting as an external collaborator supplying
already-resolved data). -/
inductive Value where
  | vempty
  | vtext (s : String)
  | vtextXml (ts : List XmlTag)
  | vnumber (v : String)
  | vpercentage (v : String)
  | vcurrency (v : String) (c : String)
  | vboolean (b : Bool)
  | vdateTime (d : String)
  | vtimeDuration (d : String)

inductive ValueType where
  | empty | text | textXml | number | percentage | currency | boolean
  | dateTime | timeDuration
  deriving DecidableEq, Repr

def Value.value_type : Value → ValueType
  | .vempty => .empty
  | .vtext _ => .text
  | .vtextXml _ => .textXml
  | .vnumber _ => .number
  | .vpercentage _ => .percentage
  | .vcurrency _ _ => .currency
  | .vboolean _ => .boolean
  | .vdateTime _ => .dateTime
  | .vtimeDuration _ => .timeDuration

structure CellSpan where
  row_span : Nat
  col_span : Nat

/-- The read-only cell view handed to `write_cell`
(`CellContentRef` in the source). -/
structure CellContentRef where
  value : Option Value
  formula : Option String
  style : Option String
  validation_name : Option String
  span : Option CellSpan

/-- Modelled from the spec: `Length` lives in a sibling module; the
encoder and `sync` only compare against `Length::Default`, so lengths
are the default or an opaque non-default value. -/
inductive Length where
  | default
  | other (n : Nat)
deriving DecidableEq

/-- Modelled from the spec: the per-sheet view configuration read by
`sync` (`sheet.config()`); fields are opaque scalars. -/
structure SheetConfig where
  cursor_x : Nat
  cursor_y : Nat
  hor_split_mode : Nat
  vert_split_mode : Nat
  hor_split_pos : Nat
  vert_split_pos : Nat
  active_split_range : Nat
  position_left : Nat
  position_right : Nat
  position_top : Nat
  position_bottom : Nat
  zoom_type : Nat
  zoom_value : Nat
  page_view_zoom_value : Nat
  show_grid : Bool
deriving DecidableEq

def SheetConfig.default0 : SheetConfig :=
  ⟨0, 0, 0, 0, 0, 0, 0, 0, 0, 0, 0, 0, 0, 0, true⟩

/-- Per-row metadata (`RowHeader` in the source); `repeat` is ≥ 1 with
default 1 per the data model (spec §3). -/
structure RowHeader where
  rowRepeat : Nat
  style : Option String
  cellstyle : Option String
  visible : Visibility
  height : Length := Length.default

/-- Per-column metadata (`ColHeader` in the source). -/
structure ColHeader where
  style : Option String
  cellstyle : Option String
  visible : Visibility
  width : Length := Length.default

/-- Modelled from the spec: `BTreeMap::get` on a per-index metadata map
kept as an association list. -/
def mapGet {α : Type} (m : List (Nat × α)) (k : Nat) : Option α :=
  (m.find? (fun p => p.1 = k)).map (·.2)

/-- The slice of `Sheet` that the table encoder reads. -/
structure Sheet where
  name : String
  style : Option String
  print_ranges : Option (List CellRange)
  print : Bool
  display : Bool
  /-- populated cells in ascending row-major order (spec §3 sparse grid) -/
  data : List ((Nat × Nat) × CellContentRef)
  row_header : List (Nat × RowHeader)
  col_header : List (Nat × ColHeader)
  header_rows : Option CellRange
  header_cols : Option CellRange
  extra : List XmlTag
  config : SheetConfig := SheetConfig.default0

/-- Modelled from the spec: `used_grid_size` is the used extent
`(max populated row + 1, max populated column + 1)` (spec §3). -/
def used_grid_size (s : Sheet) : Nat × Nat :=
  (s.data.foldl (fun m p => max m (p.1.1 + 1)) 0,
   s.data.foldl (fun m p => max m (p.1.2 + 1)) 0)

/-- The default-style lookup `book.def_style(value_type)`; the workbook is
otherwise opaque to the cell writer. -/
structure WorkBookView where
  def_style : ValueType → Option String

/-! ### `write.rs` — per-cell and per-row writers, one `XE` event per
emitter call, in source order. -/

/-- `write_cell` (`write.rs` 1693–1817). -/
def write_cell (book : WorkBookView) (cell : CellContentRef) (is_hidden : Bool) :
    List XE :=
  let tag := if is_hidden then "table:covered-table-cell" else "table:table-cell"
  (match cell.value with
   | none | some .vempty => [XE.empty tag]
   | some _ => [XE.elem tag]) ++
  (match cell.formula with
   | some formula => [XE.attrEsc "table:formula" formula]
   | none => []) ++
  (match cell.style with
   | some style => [XE.attrEsc "table:style-name" style]
   | none =>
     match cell.value with
     | some value =>
       match book.def_style value.value_type with
       | some style => [XE.attrEsc "table:style-name" style]
       | none => []
     | none => []) ++
  (match cell.validation_name with
   | some validation_name => [XE.attrEsc "table:content-validation-name" validation_name]
   | none => []) ++
  (match cell.span with
   | some span =>
     (if span.row_span > 1 then [XE.attrNat "table:number-rows-spanned" span.row_span]
      else []) ++
     (if span.col_span > 1 then [XE.attrNat "table:number-columns-spanned" span.col_span]
      else [])
   | none => []) ++
  (match cell.value with
   | none | some .vempty => []
   | some (.vtext s) =>
     XE.attr "office:value-type" "string" ::
       (s.splitOn "\n").map (fun l => XE.elemTextEsc "text:p" l)
   | some (.vtextXml t) =>
     XE.attr "office:value-type" "string" :: t.map XE.xmlTag
   | some (.vdateTime d) =>
     [XE.attr "office:value-type" "date", XE.attr "office:date-value" d,
      XE.elem "text:p", XE.text d, XE.endElem "text:p"]
   | some (.vtimeDuration d) =>
     [XE.attr "office:value-type" "time", XE.attr "office:time-value" d,
      XE.elem "text:p", XE.text d, XE.endElem "text:p"]
   | some (.vboolean b) =>
     [XE.attr "office:value-type" "boolean",
      XE.attr "office:boolean-value" (if b then "true" else "false"),
      XE.elem "text:p", XE.textStr (if b then "true" else "false"),
      XE.endElem "text:p"]
   | some (.vcurrency v c) =>
     [XE.attr "office:value-type" "currency", XE.attrEsc "office:currency" c,
      XE.attr "office:value" v, XE.elem "text:p", XE.textEsc c, XE.textStr " ",
      XE.text v, XE.endElem "text:p"]
   | some (.vnumber v) =>
     [XE.attr "office:value-type" "float", XE.attr "office:value" v,
      XE.elem "text:p", XE.text v, XE.endElem "text:p"]
   | some (.vpercentage v) =>
     [XE.attr "office:value-type" "percentage", XE.attr "office:value" v,
      XE.elem "text:p", XE.text v, XE.endElem "text:p"]) ++
  (match cell.value with
   | none | some .vempty => []
   | some _ => [XE.endElem tag])

/-- `write_empty_cells` (`write.rs` 1430–1454): split a forward gap of
`forward_dc` columns between covered and regular filler cells. -/
def write_empty_cells (forward_dc hidden_cols : Nat) : List XE :=
  let step :=
    if hidden_cols ≥ forward_dc then
      ([XE.empty "covered-table-cell",
        XE.attrNat "table:number-columns-repeated" (forward_dc - 1)], 0)
    else if hidden_cols > 0 then
      ([XE.empty "covered-table-cell",
        XE.attrNat "table:number-columns-repeated" hidden_cols],
       forward_dc - hidden_cols)
    else ([], forward_dc)
  step.1 ++
    (if step.2 > 0 then
      [XE.empty "table:table-cell",
       XE.attrNat "table:number-columns-repeated" (step.2 - 1)]
     else [])

/-- The style / default-cell-style / visibility attributes of a row
header entry, shared by `write_start_current_row` (`write.rs` 1474–1482)
and `write_empty_row` (1602–1612). -/
def rowHeaderStyleAttrs (row_header : RowHeader) : List XE :=
  (match row_header.style with
   | some rowstyle => [XE.attrEsc "table:style-name" rowstyle]
   | none => []) ++
  (match row_header.cellstyle with
   | some cellstyle => [XE.attrEsc "table:default-cell-style-name" cellstyle]
   | none => []) ++
  (if row_header.visible ≠ Visibility.visible then
    [XE.attrEsc "table:visibility" row_header.visible.display]
   else [])

/-- The `if let Some(row_header)` attribute block of
`write_start_current_row` (`write.rs` 1470–1483), repeat included. -/
def wscrRowAttrs (sheet : Sheet) (cur_row : Nat) : List XE :=
  match mapGet sheet.row_header cur_row with
  | some row_header =>
    (if row_header.rowRepeat > 1 then
      [XE.attrNat "table:number-rows-repeated" row_header.rowRepeat]
     else []) ++
    rowHeaderStyleAttrs row_header
  | none => []

/-- The `if let Some(row_header)` attribute block of `write_empty_row`
(`write.rs` 1602–1612), no repeat. -/
def werRowAttrs (sheet : Sheet) (cur_row : Nat) : List XE :=
  match mapGet sheet.row_header cur_row with
  | some row_header => rowHeaderStyleAttrs row_header
  | none => []

/-- `write_start_current_row` (`write.rs` 1456–1492). -/
def write_start_current_row (sheet : Sheet) (cur_row backward_dc : Nat) : List XE :=
  (match sheet.header_rows with
   | some header_rows =>
     if header_rows.row = cur_row then [XE.elem "table:table-header-rows"] else []
   | none => []) ++
  [XE.elem "table:table-row"] ++
  wscrRowAttrs sheet cur_row ++
  (if backward_dc > 0 then
    [XE.empty "table:table-cell",
     XE.attrNat "table:number-columns-repeated" backward_dc]
   else [])

/-- `write_end_last_row` (`write.rs` 1494–1511). -/
def write_end_last_row (sheet : Sheet) (cur_row backward_dr : Nat) : List XE :=
  [XE.endElem "table:table-row"] ++
  (match sheet.header_rows with
   | some header_rows =>
     if header_rows.to_row = cur_row - backward_dr then
       [XE.endElem "table:table-header-rows"]
     else []
   | none => [])

/-- `write_end_current_row` (`write.rs` 1513–1528). -/
def write_end_current_row (sheet : Sheet) (cur_row : Nat) : List XE :=
  [XE.endElem "table:table-row"] ++
  (match sheet.header_rows with
   | some header_rows =>
     if header_rows.to_row = cur_row then [XE.endElem "table:table-header-rows"]
     else []
   | none => [])

/-- `write_empty_row` (`write.rs` 1593–1621): one synthetic empty-row
element carrying `number-rows-repeated` and a single filler cell for all
`max_cell.1` columns. -/
def write_empty_row (sheet : Sheet) (cur_row empty_count : Nat)
    (max_cell : Nat × Nat) : List XE :=
  [XE.elem "table:table-row", XE.attrNat "table:number-rows-repeated" empty_count] ++
  werRowAttrs sheet cur_row ++
  [XE.empty "table:table-cell",
   XE.attrNat "table:number-columns-repeated" max_cell.2,
   XE.endElem "table:table-row"]

/-- `write_empty_rows_before` (`write.rs` 1530–1591), with the mutable
`corr` and `backward_dr` threaded through the two header-split branches. -/
def write_empty_rows_before (sheet : Sheet) (cur_row : Nat) (first_cell : Bool)
    (backward_dr : Nat) (max_cell : Nat × Nat) : List XE :=
  let corr : Nat := if first_cell then 0 else 1
  if backward_dr > 1 ∨ (first_cell = true ∧ backward_dr > 0) then
    match sheet.header_rows with
    | some header_rows =>
      let last_row := cur_row - backward_dr
      let b1 :=
        if header_rows.row < cur_row ∧ header_rows.row > last_row then
          (write_empty_row sheet last_row (header_rows.row - last_row - corr) max_cell
             ++ [XE.elem "table:table-header-rows"],
           0, cur_row - header_rows.row)
        else ([], corr, backward_dr)
      let corr1 := b1.2.1
      let dr1 := b1.2.2
      let last_row1 := cur_row - dr1
      let b2 :=
        if header_rows.to_row < cur_row ∧ header_rows.to_row > cur_row - dr1 then
          (write_empty_row sheet last_row1 (header_rows.to_row - last_row1 - corr1 + 1)
             max_cell ++ [XE.endElem "table:table-header-rows"],
           1, cur_row - header_rows.to_row)
        else ([], corr1, dr1)
      let corr2 := b2.2.1
      let dr2 := b2.2.2
      let last_row2 := cur_row - dr2
      b1.1 ++ b2.1 ++ write_empty_row sheet last_row2 (dr2 - corr2) max_cell
    | none =>
      let last_row := cur_row - backward_dr
      write_empty_row sheet last_row (backward_dr - corr) max_cell
  else []

/-- `write_table_columns` (`write.rs` 1654–1690). -/
def write_table_columns (sheet : Sheet) (max_cell : Nat × Nat) : List XE :=
  (List.range max_cell.2).flatMap (fun c =>
    (match sheet.header_cols with
     | some header_cols =>
       if header_cols.col = c then [XE.elem "table:table-header-columns"] else []
     | none => []) ++
    [XE.empty "table:table-column"] ++
    (match mapGet sheet.col_header c with
     | some col_header =>
       (match col_header.style with
        | some style => [XE.attrEsc "table:style-name" style]
        | none => []) ++
       (match col_header.cellstyle with
        | some cellstyle => [XE.attrEsc "table:default-cell-style-name" cellstyle]
        | none => []) ++
       (if col_header.visible ≠ Visibility.visible then
         [XE.attrEsc "table:visibility" col_header.visible.display]
        else [])
     | none => []) ++
    (match sheet.header_cols with
     | some header_cols =>
       if header_cols.to_col = c then [XE.endElem "table:table-header-columns"] else []
     | none => []))

/-! ### `write_sheet` (`write.rs` 1273–1428)

The per-cell loop is embedded as a recursion over the position-ordered
cell list; each loop-body helper call is recorded as one `SheetAct`,
and `renderAct` maps an act to the events the corresponding helper
emits, so the rendered act list is exactly the loop's event stream. -/

inductive SheetAct where
  | endLastRow (cur_row backward_dr : Nat)
  | emptyRowsBefore (cur_row : Nat) (first_cell : Bool) (backward_dr : Nat)
  | startCurrentRow (cur_row backward_dc : Nat)
  | cellAct (cell : CellContentRef) (is_hidden : Bool)
  | emptyCells (forward_dc hidden_cols : Nat)
  | endCurrentRow (cur_row : Nat)

def renderAct (book : WorkBookView) (sheet : Sheet) (max_cell : Nat × Nat) :
    SheetAct → List XE
  | .endLastRow cur_row backward_dr => write_end_last_row sheet cur_row backward_dr
  | .emptyRowsBefore cur_row first_cell backward_dr =>
    write_empty_rows_before sheet cur_row first_cell backward_dr max_cell
  | .startCurrentRow cur_row backward_dc =>
    write_start_current_row sheet cur_row backward_dc
  | .cellAct cell is_hidden => write_cell book cell is_hidden
  | .emptyCells forward_dc hidden_cols => write_empty_cells forward_dc hidden_cols
  | .endCurrentRow cur_row => write_end_current_row sheet cur_row

/-- The loop state threaded across iterations (spec §9 cursor state). -/
structure LoopState where
  first_cell : Bool
  last_r : Nat
  last_r_repeat : Nat
  last_c : Nat
  spans : List CellRange

def initLoopState : LoopState :=
  { first_cell := true, last_r := 0, last_r_repeat := 1, last_c := 0, spans := [] }

/-- The iterator peek of the `while let` loop: position of the next
populated cell, or the used-grid sentinel on the last cell
(`write.rs` 1330–1340). -/
def nextOf (max_cell : Nat × Nat) :
    List ((Nat × Nat) × CellContentRef) → Nat × Nat × Bool
  | ((next_r, next_c), _) :: _ => (next_r, next_c, false)
  | [] => (max_cell.1, max_cell.2, true)

/-- The span-list update at the end of a loop iteration
(`write.rs` 1398–1409): a new span is registered only if the current
cell is not hidden and actually spans. -/
def spansNext (spans1 : List CellRange) (hh1 : Bool) (cur_row cur_col : Nat) :
    Option CellSpan → List CellRange
  | some span =>
    if hh1 = false ∧ (span.row_span > 1 ∨ span.col_span > 1) then
      spans1 ++ [CellRange.origin_span cur_row cur_col span.row_span span.col_span]
    else spans1
  | none => spans1

/-- The repeat count recorded for the row just written
(`write.rs` 1411–1415): the row header's repeat, defaulting to 1. -/
def rowRepeatAt (sheet : Sheet) (r : Nat) : Nat :=
  match mapGet sheet.row_header r with
  | some row_header => row_header.rowRepeat
  | none => 1

/-- The `while let` loop of `write_sheet` (`write.rs` 1320–1417). -/
def write_sheet_body (sheet : Sheet) (max_cell : Nat × Nat) :
    List ((Nat × Nat) × CellContentRef) → LoopState → List SheetAct
  | [], _ => []
  | ((cur_row, cur_col), cell) :: rest, st =>
    let nxt : Nat × Nat × Bool := nextOf max_cell rest
    let next_c := nxt.2.1
    let is_last_cell := nxt.2.2
    let forward_dr := nxt.1 - cur_row
    let forward_dc := if forward_dr ≥ 1 then max_cell.2 - cur_col else next_c - cur_col
    let backward_dr := cur_row - st.last_r
    let backward_dc := if backward_dr ≥ 1 then cur_col else cur_col - st.last_c
    let acts1 :=
      if backward_dr > 0 ∧ st.first_cell = false then
        [SheetAct.endLastRow cur_row backward_dr]
      else []
    let acts2 :=
      if backward_dr > 0 ∧ st.last_r_repeat - 1 < backward_dr then
        [SheetAct.emptyRowsBefore cur_row st.first_cell
          (backward_dr - st.last_r_repeat + 1)]
      else []
    let acts3 :=
      if backward_dr > 0 ∨ st.first_cell = true then
        [SheetAct.startCurrentRow cur_row backward_dc]
      else []
    let spans1 := remove_outlooped st.spans cur_row cur_col
    let hh := check_hidden spans1 cur_row cur_col
    let acts5 := if forward_dc > 1 then [SheetAct.emptyCells forward_dc hh.2] else []
    let acts6 := if is_last_cell then [SheetAct.endCurrentRow cur_row] else []
    let spans2 := spansNext spans1 hh.1 cur_row cur_col cell.span
    acts1 ++ acts2 ++ acts3 ++ [SheetAct.cellAct cell hh.1] ++ acts5 ++ acts6 ++
      write_sheet_body sheet max_cell rest
        { first_cell := false, last_r := cur_row,
          last_r_repeat := rowRepeatAt sheet cur_row,
          last_c := cur_col, spans := spans2 }

/-- Modelled from the spec: `format_cellranges` (`crate::refs`), an
external formatting collaborator whose exact text is opaque to the core. -/
def format_cellranges (l : List CellRange) : String :=
  String.intercalate " " (l.map (fun r => toString r.row ++ ":" ++ toString r.col))

/-- The optional `table:style-name` attribute of the table preamble
(`write.rs` 1286–1288). -/
def styleAttrs (sheet : Sheet) : List XE :=
  match sheet.style with
  | some style => [XE.attrEsc "table:style-name" style]
  | none => []

/-- The optional `table:print-ranges` attribute of the table preamble
(`write.rs` 1290–1292). -/
def printRangesAttrs (sheet : Sheet) : List XE :=
  match sheet.print_ranges with
  | some print_ranges =>
    [XE.attrEsc "table:print-ranges" (format_cellranges print_ranges)]
  | none => []

/-- The passthrough tags written before the column metadata
(`write.rs` 1302–1310). -/
def prologTags (sheet : Sheet) : List XE :=
  (sheet.extra.filter (fun t =>
    ["table:title", "table:desc", "table:table-source", "office:dde-source",
     "table:scenario", "office:forms", "table:shapes"].contains t.name)).map
    XE.xmlTag

/-- The passthrough tags written after the closing table tag
(`write.rs` 1420–1427). -/
def epilogTags (sheet : Sheet) : List XE :=
  (sheet.extra.filter (fun t =>
    t.name = "table:named-expressions" ∨
    t.name = "calcext:conditional-formats")).map XE.xmlTag

/-- `write_sheet` (`write.rs` 1273–1428): table preamble, passthrough
tags, column metadata, the cell loop, and the closing tag. -/
def write_sheet (book : WorkBookView) (sheet : Sheet) : List XE :=
  let max_cell := used_grid_size sheet
  [XE.elem "table:table", XE.attrEsc "table:name" sheet.name] ++
  styleAttrs sheet ++
  printRangesAttrs sheet ++
  (if sheet.print = false then [XE.attr "table:print" "false"] else []) ++
  (if sheet.display = false then [XE.attr "table:display" "false"] else []) ++
  prologTags sheet ++
  write_table_columns sheet max_cell ++
  ((write_sheet_body sheet max_cell sheet.data initLoopState).flatMap
    (renderAct book sheet max_cell)) ++
  [XE.endElem "table:table"] ++
  epilogTags sheet

/-! ### Observers on event streams

These define, independently of the encoder, the quantities the spec's
testable properties (§8) talk about: row elements, their cell children,
and `number-columns-repeated` / `number-rows-repeated` weights. -/

/-- Attribute events: in the emitter these are only legal while a start
tag is pending, so they always directly follow their element's open. -/
def isAttrEv : XE → Bool
  | .attr _ _ => true
  | .attrEsc _ _ => true
  | .attrNat _ _ => true
  | _ => false

/-- The value of the numeric attribute `name` in the attribute run that
starts the list: scans forward while events are attributes, stopping at
the first non-attribute event. -/
def leadAttrNat (name : String) : List XE → Option Nat
  | .attrNat n v :: rest =>
    if n = name then some v else leadAttrNat name rest
  | .attr _ _ :: rest => leadAttrNat name rest
  | .attrEsc _ _ :: rest => leadAttrNat name rest
  | _ => none

/-- Cell-child element opens of a table row (`table-cell` and the covered
variant; `write_empty_cells` emits the covered variant without the
`table:` prefix, so both spellings count). -/
def isCellOpen : XE → Bool
  | .elem n =>
    n = "table:table-cell" || n = "covered-table-cell" || n = "table:covered-table-cell"
  | .empty n =>
    n = "table:table-cell" || n = "covered-table-cell" || n = "table:covered-table-cell"
  | _ => false

/-- Covered-cell element opens only. -/
def isCoveredOpen : XE → Bool
  | .elem n => n = "covered-table-cell" || n = "table:covered-table-cell"
  | .empty n => n = "covered-table-cell" || n = "table:covered-table-cell"
  | _ => false

/-- Number of grid columns represented by the cell elements of an event
list: each cell-open element counts its `number-columns-repeated` value,
or 1 when the attribute is absent (spec §8 column coverage). -/
def cellRepSum : List XE → Nat
  | [] => 0
  | e :: rest =>
    (if isCellOpen e then
      (leadAttrNat "table:number-columns-repeated" rest).getD 1
     else 0) + cellRepSum rest

/-- Number of grid positions represented by covered-cell elements,
counting repeat attributes (spec §8 span exclusivity). -/
def coveredRepSum : List XE → Nat
  | [] => 0
  | e :: rest =>
    (if isCoveredOpen e then
      (leadAttrNat "table:number-columns-repeated" rest).getD 1
     else 0) + coveredRepSum rest

/-- Sum of all values of the numeric attribute `name` in a stream. -/
def sumAttrNat (name : String) : List XE → Nat
  | [] => 0
  | .attrNat n v :: rest =>
    (if n = name then v else 0) + sumAttrNat name rest
  | _ :: rest => sumAttrNat name rest

def isRowOpen : XE → Bool
  | .elem n => n = "table:table-row"
  | _ => false

def isRowEnd : XE → Bool
  | .endElem n => n = "table:table-row"
  | _ => false

def countEv (p : XE → Bool) (l : List XE) : Nat := (l.filter p).length

/-- Row-structure scanner: a left fold that collects, for every
`table:table-row` element of a stream, the events strictly inside it. -/
structure RowScan where
  done : List (List XE)
  cur : Option (List XE)

def rowStep (s : RowScan) (e : XE) : RowScan :=
  match s.cur with
  | none => if isRowOpen e then { s with cur := some [] } else s
  | some body =>
    if isRowEnd e then { done := s.done ++ [body], cur := none }
    else if isRowOpen e then { done := s.done ++ [body], cur := some [] }
    else { s with cur := some (body ++ [e]) }

def rowScanFrom (s : RowScan) (l : List XE) : RowScan := l.foldl rowStep s

def rowScan (l : List XE) : RowScan := rowScanFrom { done := [], cur := none } l

/-- The synthetic empty-row repeat total of a sheet encoding: the sum of
`number-rows-repeated` over the rows emitted by `write_empty_rows_before`
(exactly the claim's "synthetic empty-row elements emitted for row
gaps"). -/
def syntheticRowRepeatSum (sheet : Sheet) (max_cell : Nat × Nat)
    (acts : List SheetAct) : Nat :=
  (acts.map (fun a =>
    match a with
    | .emptyRowsBefore cur_row first_cell backward_dr =>
      sumAttrNat "table:number-rows-repeated"
        (write_empty_rows_before sheet cur_row first_cell backward_dr max_cell)
    | _ => 0)).sum

/-- The number of explicit row elements of a sheet encoding: one per
`write_start_current_row` call. -/
def explicitRowCount (acts : List SheetAct) : Nat :=
  acts.countP (fun a =>
    match a with
    | .startCurrentRow _ _ => true
    | _ => false)

/-- Strict row-major order on grid positions (spec §3: iteration yields
populated cells in ascending (row, then column) order). -/
def posLt (a b : Nat × Nat) : Prop := a.1 < b.1 ∨ (a.1 = b.1 ∧ a.2 < b.2)

instance : DecidablePred (fun p : (Nat × Nat) × (Nat × Nat) => posLt p.1 p.2) :=
  fun p => inferInstanceAs (Decidable (p.1.1 < p.2.1 ∨ (p.1.1 = p.2.1 ∧ p.1.2 < p.2.2)))

/-- The sparse grid is strictly position-ordered. -/
def SortedData (data : List ((Nat × Nat) × CellContentRef)) : Prop :=
  data.Chain' (fun a b => posLt a.1 b.1)

/-! ## Claims about the emitter: C7, C8, C10 -/

/-- Claim-side: escaping a character list, character by character. -/
def escapeSpecStr : List Char → Bool → String
  | [], _ => ""
  | c :: cs, ident => escapeCharSpec c ident ++ escapeSpecStr cs ident

theorem escapeChar_step (buf : String) (c : Char) (ident : Bool) :
    (if c = '"' then buf ++ "&quot;"
     else if c = '\'' then buf ++ "&apos;"
     else if c = '&' then buf ++ "&amp;"
     else if c = '<' then buf ++ "&lt;"
     else if c = '>' then buf ++ "&gt;"
     else if c = '\\' && ident then (buf.push '\\').push '\\'
     else buf.push c) = buf ++ escapeCharSpec c ident := by
  by_cases h1 : c = '"'
  · subst h1; rfl
  · by_cases h2 : c = '\''
    · subst h2; rfl
    · by_cases h3 : c = '&'
      · subst h3; rfl
      · by_cases h4 : c = '<'
        · subst h4; rfl
        · by_cases h5 : c = '>'
          · subst h5; rfl
          · by_cases h6 : c = '\\'
            · subst h6
              cases ident <;>
                (apply String.ext
                 simp [escapeCharSpec, String.push, String.singleton,
                   String.data_append])
            · apply String.ext
              simp [escapeCharSpec, h1, h2, h3, h4, h5, h6, String.push,
                String.singleton, String.data_append]

theorem escapeList_eq_spec (cs : List Char) :
    ∀ (buf : String) (ident : Bool),
      XmlWriter.escapeList buf cs ident = buf ++ escapeSpecStr cs ident := by
  induction cs with
  | nil =>
    intro buf ident
    simp [XmlWriter.escapeList, escapeSpecStr]
  | cons c cs ih =>
    intro buf ident
    simp only [XmlWriter.escapeList]
    rw [ih, escapeChar_step, String.append_assoc]
    rfl

/-- C7: the emitter's escaping function maps `&` `<` `>` `"` `'` to their
entities, doubles backslashes only in identifier mode, leaves every other
character unchanged; the unescaped `attr`/`text` variants copy their value
verbatim and never re-escape it. -/
theorem claim_C7 (buf : String) (cs : List Char) (ident : Bool) (w : XmlWriter)
    (n v s : String) (h : w.opn ≠ Opn.pnone) :
    XmlWriter.escapeList buf cs ident = buf ++ escapeSpecStr cs ident ∧
    XmlWriter.attr w n v =
      Except.ok { w with buf := w.buf ++ " " ++ n ++ "=\"" ++ v ++ "\"" } ∧
    (XmlWriter.text w s).buf = (XmlWriter.close_elem w).buf ++ s := by
  refine ⟨escapeList_eq_spec cs buf ident, ?_, rfl⟩
  unfold XmlWriter.attr
  rw [if_neg h]

theorem claim_C7_witness :
    let w : XmlWriter := { written := [], buf := "<a", stack := ["a"], opn := .pelem }
    XmlWriter.escapeList "" "x&y".data false = "" ++ escapeSpecStr "x&y".data false ∧
    XmlWriter.attr w "k" "v" =
      Except.ok { w with buf := w.buf ++ " " ++ "k" ++ "=\"" ++ "v" ++ "\"" } ∧
    (XmlWriter.text w "t").buf = (XmlWriter.close_elem w).buf ++ "t" :=
  claim_C7 "" "x&y".data false _ "k" "v" "t" (by decide)

/-- C8: the final `close()` fails exactly when the open-element stack is
non-empty, and succeeds when it is empty. -/
theorem claim_C8 (w : XmlWriter) :
    (XmlWriter.close w).isOk = true ↔ w.stack = [] := by
  rcases w with ⟨wr, b, st, o⟩
  cases st <;> simp [XmlWriter.close, Except.isOk, Except.toBool]

/-- C10: on input without `&` `<` `>` `"` `'` (nor `\` in identifier
mode) the escaping function appends its input unchanged, and is therefore
idempotent on such input. -/
theorem claim_C10 (buf s : String) (ident : Bool)
    (h : ∀ c ∈ s.data, c ≠ '&' ∧ c ≠ '<' ∧ c ≠ '>' ∧ c ≠ '"' ∧ c ≠ '\'' ∧
      (ident = true → c ≠ '\\')) :
    XmlWriter.escapeList buf s.data ident = buf ++ s ∧
    XmlWriter.escapeList "" (XmlWriter.escapeList "" s.data ident).data ident =
      XmlWriter.escapeList "" s.data ident := by
  have key : ∀ (cs : List Char),
      (∀ c ∈ cs, c ≠ '&' ∧ c ≠ '<' ∧ c ≠ '>' ∧ c ≠ '"' ∧ c ≠ '\'' ∧
        (ident = true → c ≠ '\\')) →
      escapeSpecStr cs ident = String.mk cs := by
    intro cs
    induction cs with
    | nil => intro _; rfl
    | cons c cs ih =>
      intro hcs
      obtain ⟨h1, h2, h3, h4, h5, h6⟩ := hcs c (by simp)
      have hc : escapeCharSpec c ident = String.singleton c := by
        unfold escapeCharSpec
        rw [if_neg h1, if_neg h2, if_neg h3, if_neg h4, if_neg h5, if_neg]
        rintro ⟨hi, hb⟩
        exact h6 hi hb
      have ht := ih (fun x hx => hcs x (by simp [hx]))
      apply String.ext
      simp [escapeSpecStr, hc, ht, String.data_append, String.singleton]
  have h1 : XmlWriter.escapeList buf s.data ident = buf ++ s := by
    rw [escapeList_eq_spec, key s.data h]
  have h0 : XmlWriter.escapeList "" s.data ident = s := by
    rw [escapeList_eq_spec, key s.data h]
    apply String.ext
    simp [String.data_append]
  refine ⟨h1, ?_⟩
  rw [h0]
  exact h0

theorem claim_C10_witness :
    XmlWriter.escapeList "pre" "safe text".data false = "pre" ++ "safe text" ∧
    XmlWriter.escapeList "" (XmlWriter.escapeList "" "safe text".data false).data false =
      XmlWriter.escapeList "" "safe text".data false :=
  claim_C10 "pre" "safe text" false (by decide)

/-! ## C5: the coverage query `check_hidden` -/

/-- The claim's reading of `run_len`: the number of columns, starting at
`col` (inclusive) and within row `row`, covered by the range. -/
def runLenFromSpec (rg : CellRange) (row col : Nat) : Nat :=
  ((Finset.range (rg.to_col + 1)).filter
    (fun c2 => col ≤ c2 ∧ rg.containsB row c2 = true)).card

/-- The amended reading: the number of columns strictly beyond `col`,
within row `row`, covered by the range. -/
def runLenAmended (rg : CellRange) (row col : Nat) : Nat :=
  ((Finset.range (rg.to_col + 1)).filter
    (fun c2 => col < c2 ∧ rg.containsB row c2 = true)).card

/-- C5, counterexample: for the 2×2 range at the origin, the query at
`(0,0)` answers `run_len = 1`, but two columns starting at column 0
remain covered, so `run_len` is not the count from `col` inclusive. -/
theorem claim_C5_counterexample :
    check_hidden [⟨0, 0, 1, 1⟩] 0 0 = (true, 1) ∧
    runLenFromSpec ⟨0, 0, 1, 1⟩ 0 0 = 2 ∧ (1 : Nat) ≠ 2 := by
  refine ⟨by decide, ?_, by decide⟩
  decide

/-- C5, amended: `covered` is true iff some active range contains
`(row, col)`, and `run_len` is the number of columns strictly beyond
`col`, within the same row, still covered by the (first) containing
range. -/
theorem claim_C5_amended (ranges : List CellRange) (row col : Nat) :
    ((check_hidden ranges row col).1 = true ↔
      ∃ rg ∈ ranges, rg.containsB row col = true) ∧
    (∀ rg, ranges.find? (fun s => s.containsB row col) = some rg →
      (check_hidden ranges row col).2 = runLenAmended rg row col) := by
  constructor
  · unfold check_hidden
    cases hf : ranges.find? (fun s => s.containsB row col) with
    | none =>
      simp only [Bool.false_eq_true, false_iff]
      rintro ⟨rg, hm, hc⟩
      have : (ranges.find? (fun s => s.containsB row col)).isSome = true :=
        List.find?_isSome.2 ⟨rg, hm, hc⟩
      rw [hf] at this
      simp at this
    | some found =>
      simp only [true_iff]
      refine ⟨found, List.mem_of_find?_eq_some hf, ?_⟩
      have := List.find?_some hf
      simpa using this
  · intro rg hrg
    have hc := List.find?_some hrg
    simp only [CellRange.containsB, Bool.and_eq_true, decide_eq_true_eq] at hc
    obtain ⟨⟨⟨hr1, hr2⟩, hc1⟩, hc2⟩ := hc
    unfold check_hidden
    rw [hrg]
    have hset : ((Finset.range (rg.to_col + 1)).filter
        (fun c2 => col < c2 ∧ rg.containsB row c2 = true)) =
        Finset.Ioc col rg.to_col := by
      ext x
      simp only [Finset.mem_filter, Finset.mem_range, Finset.mem_Ioc,
        CellRange.containsB, Bool.and_eq_true, decide_eq_true_eq]
      constructor
      · rintro ⟨_, hlt, _, hx⟩
        omega
      · rintro ⟨hlt, hle⟩
        refine ⟨by omega, hlt, ⟨⟨⟨by omega, by omega⟩, by omega⟩, by omega⟩⟩
    unfold runLenAmended
    rw [hset, Nat.card_Ioc]

theorem claim_C5_amended_witness :
    (check_hidden [(⟨0, 0, 1, 1⟩ : CellRange)] 0 0).2 =
      runLenAmended ⟨0, 0, 1, 1⟩ 0 0 :=
  (claim_C5_amended [⟨0, 0, 1, 1⟩] 0 0).2 ⟨0, 0, 1, 1⟩ (by decide)

/-! ## C6: shape of `write_cell`'s output per value kind -/

/-- The `office:value-type` attribute value per value kind, as the
emission table of spec §4.4 states it. -/
def valueTypeStr : Value → String
  | .vtext _ => "string"
  | .vtextXml _ => "string"
  | .vnumber _ => "float"
  | .vpercentage _ => "percentage"
  | .vcurrency _ _ => "currency"
  | .vboolean _ => "boolean"
  | .vdateTime _ => "date"
  | .vtimeDuration _ => "time"
  | .vempty => ""

/-- The type-specific value attribute(s) per value kind (spec §4.4 table;
`—` for text kinds). -/
def valueAttrEvents : Value → List XE
  | .vtext _ => []
  | .vtextXml _ => []
  | .vnumber v => [XE.attr "office:value" v]
  | .vpercentage v => [XE.attr "office:value" v]
  | .vcurrency v c => [XE.attrEsc "office:currency" c, XE.attr "office:value" v]
  | .vboolean b => [XE.attr "office:boolean-value" (if b then "true" else "false")]
  | .vdateTime d => [XE.attr "office:date-value" d]
  | .vtimeDuration d => [XE.attr "office:time-value" d]
  | .vempty => []

/-- The text-paragraph children carrying the display text per value kind
(spec §4.4 table): one paragraph per newline-delimited line for text,
verbatim passthrough for rich text, and a single paragraph with the
display text otherwise. -/
def textChildEvents : Value → List XE
  | .vtext s => (s.splitOn "\n").map (fun l => XE.elemTextEsc "text:p" l)
  | .vtextXml ts => ts.map XE.xmlTag
  | .vnumber v => [XE.elem "text:p", XE.text v, XE.endElem "text:p"]
  | .vpercentage v => [XE.elem "text:p", XE.text v, XE.endElem "text:p"]
  | .vcurrency v c =>
    [XE.elem "text:p", XE.textEsc c, XE.textStr " ", XE.text v, XE.endElem "text:p"]
  | .vboolean b =>
    [XE.elem "text:p", XE.textStr (if b then "true" else "false"), XE.endElem "text:p"]
  | .vdateTime d => [XE.elem "text:p", XE.text d, XE.endElem "text:p"]
  | .vtimeDuration d => [XE.elem "text:p", XE.text d, XE.endElem "text:p"]
  | .vempty => []

/-- An attribute event that is not an `office:value-type` attribute. -/
def AttrNotValueType (e : XE) : Prop :=
  isAttrEv e = true ∧ ∀ v', e ≠ XE.attr "office:value-type" v'

theorem attrEsc_opt_mem {name : String} {o : Option String} {e : XE}
    (he : e ∈ (match o with
               | some x => [XE.attrEsc name x]
               | none => ([] : List XE))) : AttrNotValueType e := by
  cases o with
  | none => simp at he
  | some x =>
    simp at he
    subst he
    exact ⟨rfl, by intro v' h; cases h⟩

theorem span_attrs_mem {sp : Option CellSpan} {e : XE}
    (he : e ∈ (match sp with
               | some span =>
                 (if span.row_span > 1 then
                   [XE.attrNat "table:number-rows-spanned" span.row_span]
                  else []) ++
                 (if span.col_span > 1 then
                   [XE.attrNat "table:number-columns-spanned" span.col_span]
                  else [])
               | none => ([] : List XE))) : AttrNotValueType e := by
  cases sp with
  | none => simp at he
  | some span =>
    rcases List.mem_append.1 he with h | h <;>
      (split at h <;> simp at h) <;>
      (subst h; exact ⟨rfl, by intro v' hx; cases hx⟩)

/-- The common attribute run of a cell element: formula, style (direct or
value-type default), validation reference and span attributes, in source
order (`write.rs` 1710–1736). -/
def commonCellAttrs (book : WorkBookView) (f st vn : Option String)
    (sp : Option CellSpan) (vt : Option ValueType) : List XE :=
  (match f with
   | some x => [XE.attrEsc "table:formula" x]
   | none => []) ++
  (match st with
   | some x => [XE.attrEsc "table:style-name" x]
   | none =>
     match vt with
     | some t =>
       (match book.def_style t with
        | some x => [XE.attrEsc "table:style-name" x]
        | none => [])
     | none => []) ++
  (match vn with
   | some x => [XE.attrEsc "table:content-validation-name" x]
   | none => []) ++
  (match sp with
   | some span =>
     (if span.row_span > 1 then
       [XE.attrNat "table:number-rows-spanned" span.row_span]
      else []) ++
     (if span.col_span > 1 then
       [XE.attrNat "table:number-columns-spanned" span.col_span]
      else [])
   | none => [])

theorem commonCellAttrs_mem {book : WorkBookView} {f st vn : Option String}
    {sp : Option CellSpan} {vt : Option ValueType} :
    ∀ e ∈ commonCellAttrs book f st vn sp vt, AttrNotValueType e := by
  intro e he
  unfold commonCellAttrs at he
  rcases List.mem_append.1 he with he1 | he1
  · rcases List.mem_append.1 he1 with he2 | he2
    · rcases List.mem_append.1 he2 with he3 | he3
      · exact attrEsc_opt_mem he3
      · cases st with
        | some x =>
          simp at he3
          subst he3
          exact ⟨rfl, by intro v' h; cases h⟩
        | none =>
          cases vt with
          | none => simp at he3
          | some t => exact attrEsc_opt_mem he3
    · exact attrEsc_opt_mem he2
  · exact span_attrs_mem he1

/-- C6: an absent or explicitly empty value yields a self-closing cell
element with no `office:value-type` attribute and no text child; every
other value kind opens the element, writes its common attributes, then
`office:value-type` plus the kind's value attribute(s), then the
text-paragraph children carrying the display text (one paragraph per
newline-delimited line for a text value), and closes the element. -/
theorem claim_C6 (book : WorkBookView) (cell : CellContentRef) (hidden : Bool) :
    (match cell.value with
     | none | some .vempty =>
       ∃ attrs, (∀ e ∈ attrs, AttrNotValueType e) ∧
         write_cell book cell hidden =
           XE.empty (if hidden then "table:covered-table-cell" else "table:table-cell")
             :: attrs
     | some v =>
       ∃ attrs, (∀ e ∈ attrs, AttrNotValueType e) ∧
         write_cell book cell hidden =
           XE.elem (if hidden then "table:covered-table-cell" else "table:table-cell")
             :: (attrs ++ [XE.attr "office:value-type" (valueTypeStr v)] ++
                 valueAttrEvents v ++ textChildEvents v ++
                 [XE.endElem
                   (if hidden then "table:covered-table-cell" else "table:table-cell")])) := by
  rcases cell with ⟨val, f, st, vn, sp⟩
  cases val with
  | none =>
    refine ⟨commonCellAttrs book f st vn sp none,
      fun e he => commonCellAttrs_mem e he, ?_⟩
    simp only [write_cell, commonCellAttrs]
    simp [List.append_assoc]
  | some v =>
    cases v with
    | vempty =>
      refine ⟨commonCellAttrs book f st vn sp (some ValueType.empty),
        fun e he => commonCellAttrs_mem e he, ?_⟩
      simp only [write_cell, commonCellAttrs, Value.value_type]
      simp [List.append_assoc]
    | vtext s =>
      refine ⟨commonCellAttrs book f st vn sp (some ValueType.text),
        fun e he => commonCellAttrs_mem e he, ?_⟩
      simp only [write_cell, commonCellAttrs, Value.value_type, valueTypeStr,
        valueAttrEvents, textChildEvents]
      simp [List.append_assoc]
    | vtextXml ts =>
      refine ⟨commonCellAttrs book f st vn sp (some ValueType.textXml),
        fun e he => commonCellAttrs_mem e he, ?_⟩
      simp only [write_cell, commonCellAttrs, Value.value_type, valueTypeStr,
        valueAttrEvents, textChildEvents]
      simp [List.append_assoc]
    | vnumber v =>
      refine ⟨commonCellAttrs book f st vn sp (some ValueType.number),
        fun e he => commonCellAttrs_mem e he, ?_⟩
      simp only [write_cell, commonCellAttrs, Value.value_type, valueTypeStr,
        valueAttrEvents, textChildEvents]
      simp [List.append_assoc]
    | vpercentage v =>
      refine ⟨commonCellAttrs book f st vn sp (some ValueType.percentage),
        fun e he => commonCellAttrs_mem e he, ?_⟩
      simp only [write_cell, commonCellAttrs, Value.value_type, valueTypeStr,
        valueAttrEvents, textChildEvents]
      simp [List.append_assoc]
    | vcurrency v c =>
      refine ⟨commonCellAttrs book f st vn sp (some ValueType.currency),
        fun e he => commonCellAttrs_mem e he, ?_⟩
      simp only [write_cell, commonCellAttrs, Value.value_type, valueTypeStr,
        valueAttrEvents, textChildEvents]
      simp [List.append_assoc]
    | vboolean b =>
      refine ⟨commonCellAttrs book f st vn sp (some ValueType.boolean),
        fun e he => commonCellAttrs_mem e he, ?_⟩
      simp only [write_cell, commonCellAttrs, Value.value_type, valueTypeStr,
        valueAttrEvents, textChildEvents]
      simp [List.append_assoc]
    | vdateTime d =>
      refine ⟨commonCellAttrs book f st vn sp (some ValueType.dateTime),
        fun e he => commonCellAttrs_mem e he, ?_⟩
      simp only [write_cell, commonCellAttrs, Value.value_type, valueTypeStr,
        valueAttrEvents, textChildEvents]
      simp [List.append_assoc]
    | vtimeDuration d =>
      refine ⟨commonCellAttrs book f st vn sp (some ValueType.timeDuration),
        fun e he => commonCellAttrs_mem e he, ?_⟩
      simp only [write_cell, commonCellAttrs, Value.value_type, valueTypeStr,
        valueAttrEvents, textChildEvents]
      simp [List.append_assoc]

/-! ## Concrete workbooks and sheets used as test inputs -/

def noBook : WorkBookView := ⟨fun _ => none⟩

def baseSheet : Sheet :=
  { name := "S", style := none, print_ranges := none, print := true,
    display := true, data := [], row_header := [], col_header := [],
    header_rows := none, header_cols := none, extra := [] }

def cellEmptyV : CellContentRef :=
  { value := some .vempty, formula := none, style := none,
    validation_name := none, span := none }

def cellWithSpan (r c : Nat) : CellContentRef :=
  { value := some .vempty, formula := none, style := none,
    validation_name := none, span := some ⟨r, c⟩ }

/-- Spec §8 scenario 4: header row-range rows 0–1, single populated cell
at `(5, 0)`, used extent `(6, 1)`. -/
def sheetScn4 : Sheet :=
  { baseSheet with
    header_rows := some ⟨0, 0, 1, 0⟩,
    data := [((5, 0), cellEmptyV)] }

/-- A populated row 0 whose header declares `repeat = 2`, followed by a
populated row 2; used extent `(3, 1)`. -/
def sheetRepeat2 : Sheet :=
  { baseSheet with
    row_header := [(0, ⟨2, none, none, .visible, .default⟩)],
    data := [((0, 0), cellEmptyV), ((2, 0), cellEmptyV)] }

/-- A 2×2 span declared at origin `(0, 0)` and one more populated cell at
`(2, 2)`; used extent `(3, 3)`. -/
def sheetSpan22 : Sheet :=
  { baseSheet with
    data := [((0, 0), cellWithSpan 2 2), ((2, 2), cellEmptyV)] }

/-- Populated rows 1 and 3 only, default repeats; used extent `(4, 2)`. -/
def sheetGap : Sheet :=
  { baseSheet with
    data := [((1, 0), cellEmptyV), ((3, 1), cellEmptyV)] }

def isHeaderRowsOpen : XE → Bool
  | .elem n => n = "table:table-header-rows"
  | _ => false

def isHeaderRowsClose : XE → Bool
  | .endElem n => n = "table:table-header-rows"
  | _ => false

def isColsSpanned2 : XE → Bool
  | .attrNat n v => n = "table:number-columns-spanned" && v = 2
  | _ => false

/-! ## Generic lemmas about the stream observers -/

/-- A list that does not start with an attribute event, so that the
attribute run of a preceding element cannot leak into it. -/
def headNonAttr : List XE → Prop
  | [] => True
  | e :: _ => isAttrEv e = false

theorem leadAttrNat_append {n : String} (t ext : List XE) (h : headNonAttr ext) :
    leadAttrNat n (t ++ ext) = leadAttrNat n t := by
  induction t with
  | nil =>
    cases ext with
    | nil => rfl
    | cons e es =>
      cases e <;> simp_all [leadAttrNat, isAttrEv, headNonAttr]
  | cons e t ih =>
    cases e with
    | attr a b => simpa [leadAttrNat] using ih
    | attrEsc a b => simpa [leadAttrNat] using ih
    | attrNat a b =>
      simp only [List.cons_append, leadAttrNat]
      split
      · rfl
      · exact ih
    | elem a => rfl
    | empty a => rfl
    | text a => rfl
    | textEsc a => rfl
    | textStr a => rfl
    | elemTextEsc a b => rfl
    | endElem a => rfl
    | xmlTag a => rfl

def hasAttrNat (name : String) (l : List XE) : Bool :=
  l.any (fun e =>
    match e with
    | .attrNat n _ => n = name
    | _ => false)

theorem leadAttrNat_eq_none {n : String} {l : List XE}
    (h : hasAttrNat n l = false) : leadAttrNat n l = none := by
  induction l with
  | nil => rfl
  | cons e t ih =>
    cases e <;> simp_all [hasAttrNat, leadAttrNat]

theorem hasAttrNat_append {n : String} {a b : List XE} :
    hasAttrNat n (a ++ b) = (hasAttrNat n a || hasAttrNat n b) := by
  simp [hasAttrNat, List.any_append]

theorem cellRepSum_append (a b : List XE) (h : headNonAttr b) :
    cellRepSum (a ++ b) = cellRepSum a + cellRepSum b := by
  induction a with
  | nil => simp [cellRepSum]
  | cons e t ih =>
    simp only [List.cons_append, cellRepSum, List.append_eq]
    rw [leadAttrNat_append t b h, ih, Nat.add_assoc]

theorem coveredRepSum_append (a b : List XE) (h : headNonAttr b) :
    coveredRepSum (a ++ b) = coveredRepSum a + coveredRepSum b := by
  induction a with
  | nil => simp [coveredRepSum]
  | cons e t ih =>
    simp only [List.cons_append, coveredRepSum, List.append_eq]
    rw [leadAttrNat_append t b h, ih, Nat.add_assoc]

theorem sumAttrNat_append (n : String) (a b : List XE) :
    sumAttrNat n (a ++ b) = sumAttrNat n a + sumAttrNat n b := by
  induction a with
  | nil => simp [sumAttrNat]
  | cons e t ih =>
    cases e <;> simp only [List.cons_append, sumAttrNat, List.append_eq, ih] <;>
      omega

theorem cellRepSum_eq_zero {l : List XE} (h : ∀ e ∈ l, isCellOpen e = false) :
    cellRepSum l = 0 := by
  induction l with
  | nil => rfl
  | cons e t ih =>
    simp only [cellRepSum, h e (by simp), if_false, Bool.false_eq_true]
    exact Nat.zero_add _ ▸ ih (fun x hx => h x (by simp [hx]))

theorem coveredRepSum_eq_zero {l : List XE} (h : ∀ e ∈ l, isCoveredOpen e = false) :
    coveredRepSum l = 0 := by
  induction l with
  | nil => rfl
  | cons e t ih =>
    simp only [coveredRepSum, h e (by simp), if_false, Bool.false_eq_true]
    exact Nat.zero_add _ ▸ ih (fun x hx => h x (by simp [hx]))

theorem sumAttrNat_eq_zero {n : String} {l : List XE}
    (h : hasAttrNat n l = false) : sumAttrNat n l = 0 := by
  induction l with
  | nil => rfl
  | cons e t ih =>
    cases e <;> simp_all [hasAttrNat, sumAttrNat]

/-! Row scanner lemmas. -/

theorem rowScanFrom_append (s : RowScan) (a b : List XE) :
    rowScanFrom s (a ++ b) = rowScanFrom (rowScanFrom s a) b :=
  List.foldl_append _ _ _ _

theorem rowScanFrom_inert_none (done : List (List XE)) (l : List XE)
    (h : ∀ e ∈ l, isRowOpen e = false) :
    rowScanFrom ⟨done, none⟩ l = ⟨done, none⟩ := by
  induction l with
  | nil => rfl
  | cons e t ih =>
    have he := h e (by simp)
    simp only [rowScanFrom, List.foldl_cons, rowStep, he, Bool.false_eq_true,
      if_false]
    exact ih (fun x hx => h x (by simp [hx]))

theorem rowScanFrom_inert_some (done : List (List XE)) (l : List XE) :
    ∀ (body : List XE),
      (∀ e ∈ l, isRowOpen e = false ∧ isRowEnd e = false) →
      rowScanFrom ⟨done, some body⟩ l = ⟨done, some (body ++ l)⟩ := by
  induction l with
  | nil => intro body _; simp [rowScanFrom]
  | cons e t ih =>
    intro body h
    obtain ⟨h1, h2⟩ := h e (by simp)
    simp only [rowScanFrom, List.foldl_cons, rowStep, h1, h2, Bool.false_eq_true,
      if_false]
    have := ih (body ++ [e]) (fun x hx => h x (by simp [hx]))
    simp only [rowScanFrom] at this
    rw [this, List.append_assoc]
    rfl

theorem leadAttrNat_of_headNonAttr {n : String} {b : List XE}
    (h : headNonAttr b) : leadAttrNat n b = none := by
  cases b with
  | nil => rfl
  | cons e t => cases e <;> simp_all [leadAttrNat, isAttrEv, headNonAttr]

theorem leadAttrNat_skip {n : String} {a b : List XE}
    (h : ∀ e ∈ a, isAttrEv e = true ∧ ∀ v, e ≠ XE.attrNat n v) :
    leadAttrNat n (a ++ b) = leadAttrNat n b := by
  induction a with
  | nil => rfl
  | cons e t ih =>
    obtain ⟨h1, h2⟩ := h e (by simp)
    have ht := ih (fun x hx => h x (by simp [hx]))
    cases e with
    | attr x y => simpa [leadAttrNat] using ht
    | attrEsc x y => simpa [leadAttrNat] using ht
    | attrNat x y =>
      simp only [List.cons_append, leadAttrNat, List.append_eq]
      rw [if_neg, ht]
      intro hx
      exact h2 y (by rw [hx])
    | elem x => simp [isAttrEv] at h1
    | empty x => simp [isAttrEv] at h1
    | text x => simp [isAttrEv] at h1
    | textEsc x => simp [isAttrEv] at h1
    | textStr x => simp [isAttrEv] at h1
    | elemTextEsc x y => simp [isAttrEv] at h1
    | endElem x => simp [isAttrEv] at h1
    | xmlTag x => simp [isAttrEv] at h1

theorem cellRepSum_skip {a b : List XE} (h : ∀ e ∈ a, isCellOpen e = false) :
    cellRepSum (a ++ b) = cellRepSum b := by
  induction a with
  | nil => rfl
  | cons e t ih =>
    simp only [List.cons_append, cellRepSum, h e (by simp), Bool.false_eq_true,
      if_false]
    exact Nat.zero_add _ ▸ ih (fun x hx => h x (by simp [hx]))

theorem coveredRepSum_skip {a b : List XE} (h : ∀ e ∈ a, isCoveredOpen e = false) :
    coveredRepSum (a ++ b) = coveredRepSum b := by
  induction a with
  | nil => rfl
  | cons e t ih =>
    simp only [List.cons_append, coveredRepSum, h e (by simp), Bool.false_eq_true,
      if_false]
    exact Nat.zero_add _ ▸ ih (fun x hx => h x (by simp [hx]))

theorem headNonAttr_append_of {l l' : List XE}
    (h : ∀ e ∈ l, isAttrEv e = false) (h' : headNonAttr l') :
    headNonAttr (l ++ l') := by
  cases l with
  | nil => exact h'
  | cons e t => exact h e (by simp)

/-! ## Structural facts about `write_cell`'s event list -/

/-- The cell element name chosen by `write_cell`. -/
def cTag (hidden : Bool) : String :=
  if hidden then "table:covered-table-cell" else "table:table-cell"

/-- `write_cell`'s output is a cell-element open followed by the common
attribute run and, for a present non-empty value, the `office:value-type`
attribute, the value attribute(s), the text children and the closing
tag. -/
theorem write_cell_cases (book : WorkBookView) (cell : CellContentRef)
    (hidden : Bool) :
    (∃ vt, write_cell book cell hidden =
      XE.empty (cTag hidden) ::
        commonCellAttrs book cell.formula cell.style cell.validation_name
          cell.span vt) ∨
    (∃ w : Value, write_cell book cell hidden =
      XE.elem (cTag hidden) ::
        (commonCellAttrs book cell.formula cell.style cell.validation_name
           cell.span (some w.value_type) ++
         (XE.attr "office:value-type" (valueTypeStr w) ::
           (valueAttrEvents w ++ textChildEvents w ++
            [XE.endElem (cTag hidden)])))) := by
  rcases cell with ⟨val, f, st, vn, sp⟩
  cases val with
  | none =>
    left
    refine ⟨none, ?_⟩
    simp only [write_cell, commonCellAttrs, cTag]
    simp [List.append_assoc]
  | some v =>
    cases v with
    | vempty =>
      left
      refine ⟨some ValueType.empty, ?_⟩
      simp only [write_cell, commonCellAttrs, cTag, Value.value_type]
      simp [List.append_assoc]
    | vtext s =>
      right
      refine ⟨Value.vtext s, ?_⟩
      simp only [write_cell, commonCellAttrs, cTag, Value.value_type,
        valueTypeStr, valueAttrEvents, textChildEvents]
      simp [List.append_assoc]
    | vtextXml ts =>
      right
      refine ⟨Value.vtextXml ts, ?_⟩
      simp only [write_cell, commonCellAttrs, cTag, Value.value_type,
        valueTypeStr, valueAttrEvents, textChildEvents]
      simp [List.append_assoc]
    | vnumber x =>
      right
      refine ⟨Value.vnumber x, ?_⟩
      simp only [write_cell, commonCellAttrs, cTag, Value.value_type,
        valueTypeStr, valueAttrEvents, textChildEvents]
      simp [List.append_assoc]
    | vpercentage x =>
      right
      refine ⟨Value.vpercentage x, ?_⟩
      simp only [write_cell, commonCellAttrs, cTag, Value.value_type,
        valueTypeStr, valueAttrEvents, textChildEvents]
      simp [List.append_assoc]
    | vcurrency x y =>
      right
      refine ⟨Value.vcurrency x y, ?_⟩
      simp only [write_cell, commonCellAttrs, cTag, Value.value_type,
        valueTypeStr, valueAttrEvents, textChildEvents]
      simp [List.append_assoc]
    | vboolean b =>
      right
      refine ⟨Value.vboolean b, ?_⟩
      simp only [write_cell, commonCellAttrs, cTag, Value.value_type,
        valueTypeStr, valueAttrEvents, textChildEvents]
      simp [List.append_assoc]
    | vdateTime d =>
      right
      refine ⟨Value.vdateTime d, ?_⟩
      simp only [write_cell, commonCellAttrs, cTag, Value.value_type,
        valueTypeStr, valueAttrEvents, textChildEvents]
      simp [List.append_assoc]
    | vtimeDuration d =>
      right
      refine ⟨Value.vtimeDuration d, ?_⟩
      simp only [write_cell, commonCellAttrs, cTag, Value.value_type,
        valueTypeStr, valueAttrEvents, textChildEvents]
      simp [List.append_assoc]

/-- Every event of the common attribute run is an `attr_esc` or one of
the two span `attrNat`s. -/
theorem commonCellAttrs_cases {book : WorkBookView} {f st vn : Option String}
    {sp : Option CellSpan} {vt : Option ValueType} :
    ∀ e ∈ commonCellAttrs book f st vn sp vt,
      (∃ a b, e = XE.attrEsc a b) ∨
      (∃ v, e = XE.attrNat "table:number-rows-spanned" v) ∨
      (∃ v, e = XE.attrNat "table:number-columns-spanned" v) := by
  intro e he
  unfold commonCellAttrs at he
  rcases List.mem_append.1 he with he1 | he1
  · left
    rcases List.mem_append.1 he1 with he2 | he2
    · rcases List.mem_append.1 he2 with he3 | he3
      · cases f with
        | none => simp at he3
        | some x => simp at he3; subst he3; exact ⟨_, _, rfl⟩
      · cases st with
        | some x => simp at he3; subst he3; exact ⟨_, _, rfl⟩
        | none =>
          cases vt with
          | none => simp at he3
          | some t =>
            cases hb : book.def_style t with
            | none => simp [hb] at he3
            | some x =>
              simp [hb] at he3
              subst he3
              exact ⟨_, _, rfl⟩
    · cases vn with
      | none => simp at he2
      | some x => simp at he2; subst he2; exact ⟨_, _, rfl⟩
  · cases sp with
    | none => simp at he1
    | some span =>
      rcases List.mem_append.1 he1 with h | h
      · split at h
        · simp at h; subst h; exact Or.inr (Or.inl ⟨_, rfl⟩)
        · simp at h
      · split at h
        · simp at h; subst h; exact Or.inr (Or.inr ⟨_, rfl⟩)
        · simp at h

theorem valueAttrEvents_cases {v : Value} :
    ∀ e ∈ valueAttrEvents v,
      (∃ a b, e = XE.attr a b) ∨ (∃ a b, e = XE.attrEsc a b) := by
  intro e he
  cases v <;> simp [valueAttrEvents] at he <;>
    first
    | (subst he; exact Or.inl ⟨_, _, rfl⟩)
    | (rcases he with he | he <;> subst he
       · exact Or.inr ⟨_, _, rfl⟩
       · exact Or.inl ⟨_, _, rfl⟩)

theorem textChildEvents_props {v : Value} :
    ∀ e ∈ textChildEvents v,
      isAttrEv e = false ∧ isCellOpen e = false ∧ isCoveredOpen e = false ∧
      isRowOpen e = false ∧ isRowEnd e = false := by
  intro e he
  cases v with
  | vtext s =>
    simp only [textChildEvents, List.mem_map] at he
    obtain ⟨l, -, rfl⟩ := he
    exact ⟨rfl, rfl, rfl, rfl, rfl⟩
  | vtextXml ts =>
    simp only [textChildEvents, List.mem_map] at he
    obtain ⟨t, -, rfl⟩ := he
    exact ⟨rfl, rfl, rfl, rfl, rfl⟩
  | vempty => simp [textChildEvents] at he
  | vnumber x =>
    simp only [textChildEvents, List.mem_cons, List.not_mem_nil, or_false] at he
    rcases he with rfl | rfl | rfl
    · exact ⟨rfl, by decide, by decide, by decide, rfl⟩
    · exact ⟨rfl, rfl, rfl, rfl, rfl⟩
    · exact ⟨rfl, rfl, rfl, rfl, by decide⟩
  | vpercentage x =>
    simp only [textChildEvents, List.mem_cons, List.not_mem_nil, or_false] at he
    rcases he with rfl | rfl | rfl
    · exact ⟨rfl, by decide, by decide, by decide, rfl⟩
    · exact ⟨rfl, rfl, rfl, rfl, rfl⟩
    · exact ⟨rfl, rfl, rfl, rfl, by decide⟩
  | vcurrency x y =>
    simp only [textChildEvents, List.mem_cons, List.not_mem_nil, or_false] at he
    rcases he with rfl | rfl | rfl | rfl | rfl
    · exact ⟨rfl, by decide, by decide, by decide, rfl⟩
    · exact ⟨rfl, rfl, rfl, rfl, rfl⟩
    · exact ⟨rfl, rfl, rfl, rfl, rfl⟩
    · exact ⟨rfl, rfl, rfl, rfl, rfl⟩
    · exact ⟨rfl, rfl, rfl, rfl, by decide⟩
  | vboolean b =>
    simp only [textChildEvents, List.mem_cons, List.not_mem_nil, or_false] at he
    rcases he with rfl | rfl | rfl
    · exact ⟨rfl, by decide, by decide, by decide, rfl⟩
    · exact ⟨rfl, rfl, rfl, rfl, rfl⟩
    · exact ⟨rfl, rfl, rfl, rfl, by decide⟩
  | vdateTime d =>
    simp only [textChildEvents, List.mem_cons, List.not_mem_nil, or_false] at he
    rcases he with rfl | rfl | rfl
    · exact ⟨rfl, by decide, by decide, by decide, rfl⟩
    · exact ⟨rfl, rfl, rfl, rfl, rfl⟩
    · exact ⟨rfl, rfl, rfl, rfl, by decide⟩
  | vtimeDuration d =>
    simp only [textChildEvents, List.mem_cons, List.not_mem_nil, or_false] at he
    rcases he with rfl | rfl | rfl
    · exact ⟨rfl, by decide, by decide, by decide, rfl⟩
    · exact ⟨rfl, rfl, rfl, rfl, rfl⟩
    · exact ⟨rfl, rfl, rfl, rfl, by decide⟩

/-- The common attribute run: all attribute events, none of them a
`number-columns-repeated` and none a cell or row token. -/
theorem commonCellAttrs_attrRun {book : WorkBookView} {f st vn : Option String}
    {sp : Option CellSpan} {vt : Option ValueType} :
    ∀ e ∈ commonCellAttrs book f st vn sp vt,
      isAttrEv e = true ∧ (∀ v, e ≠ XE.attrNat "table:number-columns-repeated" v) ∧
      isCellOpen e = false ∧ isCoveredOpen e = false ∧
      isRowOpen e = false ∧ isRowEnd e = false := by
  intro e he
  rcases commonCellAttrs_cases e he with ⟨a, b, rfl⟩ | ⟨v, rfl⟩ | ⟨v, rfl⟩
  · refine ⟨rfl, ?_, rfl, rfl, rfl, rfl⟩
    intro v h
    cases h
  · refine ⟨rfl, ?_, rfl, rfl, rfl, rfl⟩
    intro w h
    simp at h
  · refine ⟨rfl, ?_, rfl, rfl, rfl, rfl⟩
    intro w h
    simp at h

theorem valueAttrEvents_attrRun {v : Value} :
    ∀ e ∈ valueAttrEvents v,
      isAttrEv e = true ∧ (∀ w, e ≠ XE.attrNat "table:number-columns-repeated" w) ∧
      isCellOpen e = false ∧ isCoveredOpen e = false ∧
      isRowOpen e = false ∧ isRowEnd e = false := by
  intro e he
  rcases valueAttrEvents_cases e he with ⟨a, b, rfl⟩ | ⟨a, b, rfl⟩
  · refine ⟨rfl, ?_, rfl, rfl, rfl, rfl⟩
    intro w h
    cases h
  · refine ⟨rfl, ?_, rfl, rfl, rfl, rfl⟩
    intro w h
    cases h

theorem write_cell_no_row_tokens (book : WorkBookView) (cell : CellContentRef)
    (hidden : Bool) :
    ∀ e ∈ write_cell book cell hidden, isRowOpen e = false ∧ isRowEnd e = false := by
  have htag1 : isRowOpen (XE.elem (cTag hidden)) = false := by
    cases hidden <;> decide
  have htag2 : isRowEnd (XE.endElem (cTag hidden)) = false := by
    cases hidden <;> decide
  rcases write_cell_cases book cell hidden with ⟨vt, heq⟩ | ⟨w, heq⟩ <;> rw [heq]
  · intro e he
    rcases List.mem_cons.1 he with rfl | he
    · exact ⟨rfl, rfl⟩
    · obtain ⟨-, -, -, -, h5, h6⟩ := commonCellAttrs_attrRun e he
      exact ⟨h5, h6⟩
  · intro e he
    rcases List.mem_cons.1 he with rfl | he
    · exact ⟨htag1, rfl⟩
    · rcases List.mem_append.1 he with he1 | he1
      · obtain ⟨-, -, -, -, h5, h6⟩ := commonCellAttrs_attrRun e he1
        exact ⟨h5, h6⟩
      · rcases List.mem_cons.1 he1 with rfl | he2
        · exact ⟨rfl, rfl⟩
        · rcases List.mem_append.1 he2 with he3 | he3
          · rcases List.mem_append.1 he3 with he4 | he4
            · obtain ⟨-, -, -, -, h5, h6⟩ := valueAttrEvents_attrRun e he4
              exact ⟨h5, h6⟩
            · obtain ⟨-, -, -, h5, h6⟩ := textChildEvents_props e he4
              exact ⟨h5, h6⟩
          · simp at he3
            subst he3
            exact ⟨rfl, htag2⟩

theorem headNonAttr_write_cell (book : WorkBookView) (cell : CellContentRef)
    (hidden : Bool) : headNonAttr (write_cell book cell hidden) := by
  rcases write_cell_cases book cell hidden with ⟨vt, heq⟩ | ⟨w, heq⟩ <;> rw [heq] <;>
    exact rfl

theorem cellRepSum_write_cell (book : WorkBookView) (cell : CellContentRef)
    (hidden : Bool) (ext : List XE) (hext : headNonAttr ext) :
    cellRepSum (write_cell book cell hidden ++ ext) = 1 + cellRepSum ext := by
  have hopen : isCellOpen (XE.empty (cTag hidden)) = true := by
    cases hidden <;> decide
  have hopen2 : isCellOpen (XE.elem (cTag hidden)) = true := by
    cases hidden <;> decide
  rcases write_cell_cases book cell hidden with ⟨vt, heq⟩ | ⟨w, heq⟩ <;> rw [heq]
  · simp only [List.cons_append, cellRepSum, hopen, if_true, List.append_eq]
    rw [leadAttrNat_skip (fun e he => ⟨(commonCellAttrs_attrRun e he).1,
          (commonCellAttrs_attrRun e he).2.1⟩),
        leadAttrNat_of_headNonAttr hext,
        cellRepSum_skip (fun e he => (commonCellAttrs_attrRun e he).2.2.1)]
    rfl
  · simp only [List.cons_append, cellRepSum, hopen2, if_true, List.append_assoc,
      List.cons_append, List.append_eq, List.nil_append]
    have hB : headNonAttr (textChildEvents w ++
        (XE.endElem (cTag hidden) :: ext)) :=
      headNonAttr_append_of (fun e he => (textChildEvents_props e he).1) rfl
    rw [leadAttrNat_skip (fun e he => ⟨(commonCellAttrs_attrRun e he).1,
          (commonCellAttrs_attrRun e he).2.1⟩)]
    rw [show ∀ (l : List XE), leadAttrNat "table:number-columns-repeated"
          (XE.attr "office:value-type" (valueTypeStr w) :: l) =
          leadAttrNat "table:number-columns-repeated" l from fun l => rfl]
    rw [leadAttrNat_skip (fun e he => ⟨(valueAttrEvents_attrRun e he).1,
          (valueAttrEvents_attrRun e he).2.1⟩),
        leadAttrNat_of_headNonAttr hB]
    rw [cellRepSum_skip (fun e he => (commonCellAttrs_attrRun e he).2.2.1)]
    rw [show ∀ (l : List XE), cellRepSum
          (XE.attr "office:value-type" (valueTypeStr w) :: l) = cellRepSum l
        from fun l => by simp [cellRepSum, isCellOpen]]
    rw [cellRepSum_skip (fun e he => (valueAttrEvents_attrRun e he).2.2.1),
        cellRepSum_skip (fun e he => (textChildEvents_props e he).2.1)]
    have hend : cellRepSum (XE.endElem (cTag hidden) :: ext) = cellRepSum ext := by
      simp [cellRepSum, isCellOpen]
    rw [hend]
    rfl

theorem coveredRepSum_write_cell (book : WorkBookView) (cell : CellContentRef)
    (hidden : Bool) :
    coveredRepSum (write_cell book cell hidden) = if hidden then 1 else 0 := by
  have hcov : isCoveredOpen (XE.empty (cTag hidden)) = hidden := by
    cases hidden <;> decide
  have hcov2 : isCoveredOpen (XE.elem (cTag hidden)) = hidden := by
    cases hidden <;> decide
  rcases write_cell_cases book cell hidden with ⟨vt, heq⟩ | ⟨w, heq⟩ <;> rw [heq]
  · simp only [coveredRepSum, hcov]
    have hz : coveredRepSum (commonCellAttrs book cell.formula cell.style
        cell.validation_name cell.span vt) = 0 :=
      coveredRepSum_eq_zero (fun e he => (commonCellAttrs_attrRun e he).2.2.2.1)
    rw [hz]
    have hlead : leadAttrNat "table:number-columns-repeated"
        (commonCellAttrs book cell.formula cell.style cell.validation_name
          cell.span vt) = none := by
      have := @leadAttrNat_skip "table:number-columns-repeated"
        (commonCellAttrs book cell.formula cell.style cell.validation_name
          cell.span vt) ([] : List XE)
        (fun e he => ⟨(commonCellAttrs_attrRun e he).1,
          (commonCellAttrs_attrRun e he).2.1⟩)
      simpa using this
    rw [hlead]
    cases hidden <;> simp
  · simp only [coveredRepSum, hcov2]
    have hz : coveredRepSum (commonCellAttrs book cell.formula cell.style
        cell.validation_name cell.span (some w.value_type) ++
        (XE.attr "office:value-type" (valueTypeStr w) ::
          (valueAttrEvents w ++ textChildEvents w ++
           [XE.endElem (cTag hidden)]))) = 0 := by
      apply coveredRepSum_eq_zero
      intro e he
      rcases List.mem_append.1 he with he1 | he1
      · exact (commonCellAttrs_attrRun e he1).2.2.2.1
      · rcases List.mem_cons.1 he1 with rfl | he2
        · rfl
        · rcases List.mem_append.1 he2 with he3 | he3
          · rcases List.mem_append.1 he3 with he4 | he4
            · exact (valueAttrEvents_attrRun e he4).2.2.2.1
            · exact (textChildEvents_props e he4).2.2.1
          · simp at he3
            subst he3
            rfl
    rw [hz]
    have hlead : leadAttrNat "table:number-columns-repeated"
        (commonCellAttrs book cell.formula cell.style cell.validation_name
          cell.span (some w.value_type) ++
        (XE.attr "office:value-type" (valueTypeStr w) ::
          (valueAttrEvents w ++ textChildEvents w ++
           [XE.endElem (cTag hidden)]))) = none := by
      rw [leadAttrNat_skip (fun e he => ⟨(commonCellAttrs_attrRun e he).1,
            (commonCellAttrs_attrRun e he).2.1⟩)]
      rw [show ∀ (l : List XE), leadAttrNat "table:number-columns-repeated"
            (XE.attr "office:value-type" (valueTypeStr w) :: l) =
            leadAttrNat "table:number-columns-repeated" l from fun l => rfl]
      have hB : headNonAttr (textChildEvents w ++ [XE.endElem (cTag hidden)]) :=
        headNonAttr_append_of (fun e he => (textChildEvents_props e he).1) rfl
      rw [show valueAttrEvents w ++ textChildEvents w ++ [XE.endElem (cTag hidden)] =
            valueAttrEvents w ++ (textChildEvents w ++ [XE.endElem (cTag hidden)])
          from List.append_assoc _ _ _]
      rw [leadAttrNat_skip (fun e he => ⟨(valueAttrEvents_attrRun e he).1,
            (valueAttrEvents_attrRun e he).2.1⟩)]
      exact leadAttrNat_of_headNonAttr hB
    rw [hlead]
    cases hidden <;> simp

/-! ## Structural facts about the row writers -/

theorem rowHeaderStyleAttrs_cases {rh : RowHeader} :
    ∀ e ∈ rowHeaderStyleAttrs rh, ∃ a b, e = XE.attrEsc a b := by
  intro e he
  unfold rowHeaderStyleAttrs at he
  rcases List.mem_append.1 he with he1 | he1
  · rcases List.mem_append.1 he1 with he2 | he2
    · cases hst : rh.style with
      | none => rw [hst] at he2; simp at he2
      | some x =>
        rw [hst] at he2
        simp at he2
        subst he2
        exact ⟨_, _, rfl⟩
    · cases hst : rh.cellstyle with
      | none => rw [hst] at he2; simp at he2
      | some x =>
        rw [hst] at he2
        simp at he2
        subst he2
        exact ⟨_, _, rfl⟩
  · split at he1
    · simp at he1; subst he1; exact ⟨_, _, rfl⟩
    · simp at he1

theorem werRowAttrs_cases {sheet : Sheet} {r : Nat} :
    ∀ e ∈ werRowAttrs sheet r, ∃ a b, e = XE.attrEsc a b := by
  intro e he
  unfold werRowAttrs at he
  cases hrh : mapGet sheet.row_header r with
  | none => rw [hrh] at he; simp at he
  | some rh =>
    rw [hrh] at he
    exact rowHeaderStyleAttrs_cases e he

theorem wscrRowAttrs_cases {sheet : Sheet} {r : Nat} :
    ∀ e ∈ wscrRowAttrs sheet r,
      (∃ a b, e = XE.attrEsc a b) ∨
      (∃ v, e = XE.attrNat "table:number-rows-repeated" v) := by
  intro e he
  unfold wscrRowAttrs at he
  cases hrh : mapGet sheet.row_header r with
  | none => rw [hrh] at he; simp at he
  | some rh =>
    rw [hrh] at he
    rcases List.mem_append.1 he with he1 | he1
    · split at he1
      · simp at he1; subst he1; exact Or.inr ⟨_, rfl⟩
      · simp at he1
    · exact Or.inl (rowHeaderStyleAttrs_cases e he1)

theorem write_empty_row_scan (sheet : Sheet) (r n : Nat) (mc : Nat × Nat)
    (done : List (List XE)) :
    ∃ seg, rowScanFrom ⟨done, none⟩ (write_empty_row sheet r n mc) =
        ⟨done ++ [seg], none⟩ ∧ cellRepSum seg = mc.2 := by
  have hshape : write_empty_row sheet r n mc =
      [XE.elem "table:table-row"] ++
      (XE.attrNat "table:number-rows-repeated" n ::
        (werRowAttrs sheet r ++
         [XE.empty "table:table-cell",
          XE.attrNat "table:number-columns-repeated" mc.2])) ++
      [XE.endElem "table:table-row"] := by
    simp [write_empty_row, List.append_assoc]
  refine ⟨XE.attrNat "table:number-rows-repeated" n ::
    (werRowAttrs sheet r ++
     [XE.empty "table:table-cell",
      XE.attrNat "table:number-columns-repeated" mc.2]), ?_, ?_⟩
  · rw [hshape, rowScanFrom_append, rowScanFrom_append]
    have h1 : rowScanFrom ⟨done, none⟩ [XE.elem "table:table-row"] =
        ⟨done, some []⟩ := rfl
    rw [h1]
    have h2 := rowScanFrom_inert_some done
      (XE.attrNat "table:number-rows-repeated" n ::
        (werRowAttrs sheet r ++
         [XE.empty "table:table-cell",
          XE.attrNat "table:number-columns-repeated" mc.2])) []
      (by
        intro e he
        rcases List.mem_cons.1 he with rfl | he
        · exact ⟨rfl, rfl⟩
        · rcases List.mem_append.1 he with he1 | he1
          · obtain ⟨a, b, rfl⟩ := werRowAttrs_cases e he1
            exact ⟨rfl, rfl⟩
          · rcases List.mem_cons.1 he1 with rfl | he2
            · exact ⟨rfl, rfl⟩
            · simp at he2
              subst he2
              exact ⟨rfl, rfl⟩)
    rw [h2]
    rfl
  · simp only [cellRepSum, isCellOpen, Bool.false_eq_true, if_false,
      Nat.zero_add]
    rw [cellRepSum_skip (fun e he => by
      obtain ⟨a, b, rfl⟩ := werRowAttrs_cases e he
      rfl)]
    simp [cellRepSum, leadAttrNat, isCellOpen]

theorem write_empty_row_sum (sheet : Sheet) (r n : Nat) (mc : Nat × Nat) :
    sumAttrNat "table:number-rows-repeated" (write_empty_row sheet r n mc) = n := by
  unfold write_empty_row
  rw [sumAttrNat_append, sumAttrNat_append]
  have h2 : sumAttrNat "table:number-rows-repeated" (werRowAttrs sheet r) = 0 := by
    apply sumAttrNat_eq_zero
    rw [hasAttrNat, List.any_eq_false]
    intro e he
    obtain ⟨a, b, rfl⟩ := werRowAttrs_cases e he
    simp
  rw [h2]
  simp [sumAttrNat]

theorem write_empty_row_no_covered (sheet : Sheet) (r n : Nat) (mc : Nat × Nat) :
    ∀ e ∈ write_empty_row sheet r n mc, isCoveredOpen e = false := by
  intro e he
  unfold write_empty_row at he
  rcases List.mem_append.1 he with he1 | he1
  · rcases List.mem_append.1 he1 with he2 | he2
    · rcases List.mem_cons.1 he2 with rfl | he3
      · rfl
      · simp at he3; subst he3; rfl
    · obtain ⟨a, b, rfl⟩ := werRowAttrs_cases e he2
      rfl
  · rcases List.mem_cons.1 he1 with rfl | he2
    · decide
    · rcases List.mem_cons.1 he2 with rfl | he3
      · rfl
      · simp at he3; subst he3; rfl

theorem write_start_current_row_scan (sheet : Sheet) (r bdc : Nat)
    (done : List (List XE)) :
    ∃ body, rowScanFrom ⟨done, none⟩ (write_start_current_row sheet r bdc) =
        ⟨done, some body⟩ ∧ cellRepSum body = bdc := by
  refine ⟨wscrRowAttrs sheet r ++
    (if bdc > 0 then
      [XE.empty "table:table-cell",
       XE.attrNat "table:number-columns-repeated" bdc]
     else []), ?_, ?_⟩
  · unfold write_start_current_row
    rw [rowScanFrom_append, rowScanFrom_append, rowScanFrom_append]
    have h0 : rowScanFrom ⟨done, none⟩
        (match sheet.header_rows with
         | some header_rows =>
           if header_rows.row = r then [XE.elem "table:table-header-rows"] else []
         | none => ([] : List XE)) = ⟨done, none⟩ := by
      apply rowScanFrom_inert_none
      intro e he
      cases hh : sheet.header_rows with
      | none => rw [hh] at he; simp at he
      | some hr =>
        rw [hh] at he
        simp at he
        first
        | (obtain ⟨-, rfl⟩ := he; decide)
        | (obtain ⟨rfl, -⟩ := he; decide)
    rw [h0]
    have h1 : rowScanFrom ⟨done, none⟩ [XE.elem "table:table-row"] =
        ⟨done, some []⟩ := rfl
    rw [h1]
    have h2 := rowScanFrom_inert_some done (wscrRowAttrs sheet r) []
      (by
        intro e he
        rcases wscrRowAttrs_cases e he with ⟨a, b, rfl⟩ | ⟨v, rfl⟩
        · exact ⟨rfl, rfl⟩
        · exact ⟨rfl, rfl⟩)
    rw [h2]
    have h3 := rowScanFrom_inert_some done
      (if bdc > 0 then
        [XE.empty "table:table-cell",
         XE.attrNat "table:number-columns-repeated" bdc]
       else []) ([] ++ wscrRowAttrs sheet r)
      (by
        intro e he
        split at he
        · rcases List.mem_cons.1 he with rfl | he2
          · exact ⟨rfl, rfl⟩
          · simp at he2; subst he2; exact ⟨rfl, rfl⟩
        · simp at he)
    rw [h3]
    rw [List.nil_append]
  · rw [cellRepSum_skip (fun e he => by
      rcases wscrRowAttrs_cases e he with ⟨a, b, rfl⟩ | ⟨v, rfl⟩ <;> rfl)]
    by_cases hb : bdc > 0
    · rw [if_pos hb]
      simp [cellRepSum, leadAttrNat, isCellOpen]
    · rw [if_neg hb]
      simp only [cellRepSum]
      omega

theorem write_start_current_row_no_covered (sheet : Sheet) (r bdc : Nat) :
    ∀ e ∈ write_start_current_row sheet r bdc, isCoveredOpen e = false := by
  intro e he
  unfold write_start_current_row at he
  rcases List.mem_append.1 he with he1 | he1
  · rcases List.mem_append.1 he1 with he2 | he2
    · rcases List.mem_append.1 he2 with he3 | he3
      · cases hh : sheet.header_rows with
        | none => rw [hh] at he3; simp at he3
        | some hr =>
          rw [hh] at he3
          simp at he3
          first
          | (obtain ⟨-, rfl⟩ := he3; decide)
          | (obtain ⟨rfl, -⟩ := he3; decide)
      · simp at he3; subst he3; rfl
    · rcases wscrRowAttrs_cases e he2 with ⟨a, b, rfl⟩ | ⟨v, rfl⟩ <;> rfl
  · split at he1
    · rcases List.mem_cons.1 he1 with rfl | he2
      · decide
      · simp at he2; subst he2; rfl
    · simp at he1

theorem write_end_last_row_scan (sheet : Sheet) (r bdr : Nat)
    (done : List (List XE)) (body : List XE) :
    rowScanFrom ⟨done, some body⟩ (write_end_last_row sheet r bdr) =
      ⟨done ++ [body], none⟩ := by
  unfold write_end_last_row
  rw [rowScanFrom_append]
  have h1 : rowScanFrom ⟨done, some body⟩ [XE.endElem "table:table-row"] =
      ⟨done ++ [body], none⟩ := rfl
  rw [h1]
  apply rowScanFrom_inert_none
  intro e he
  cases hh : sheet.header_rows with
  | none => rw [hh] at he; simp at he
  | some hr =>
    rw [hh] at he
    simp at he
    first
    | (obtain ⟨-, rfl⟩ := he; decide)
    | (obtain ⟨rfl, -⟩ := he; decide)

theorem write_end_current_row_scan (sheet : Sheet) (r : Nat)
    (done : List (List XE)) (body : List XE) :
    rowScanFrom ⟨done, some body⟩ (write_end_current_row sheet r) =
      ⟨done ++ [body], none⟩ := by
  unfold write_end_current_row
  rw [rowScanFrom_append]
  have h1 : rowScanFrom ⟨done, some body⟩ [XE.endElem "table:table-row"] =
      ⟨done ++ [body], none⟩ := rfl
  rw [h1]
  apply rowScanFrom_inert_none
  intro e he
  cases hh : sheet.header_rows with
  | none => rw [hh] at he; simp at he
  | some hr =>
    rw [hh] at he
    simp at he
    first
    | (obtain ⟨-, rfl⟩ := he; decide)
    | (obtain ⟨rfl, -⟩ := he; decide)

/-! ## Structural facts about `write_empty_cells` -/

theorem cellRepSum_write_empty_cells (fdc hid : Nat) :
    cellRepSum (write_empty_cells fdc hid) = fdc - 1 := by
  unfold write_empty_cells
  by_cases h1 : hid ≥ fdc
  · simp only [ge_iff_le, if_pos h1]
    simp [cellRepSum, leadAttrNat, isCellOpen]
  · by_cases h2 : hid > 0
    · have h3 : 0 < fdc - hid := by omega
      simp only [ge_iff_le, if_neg h1, if_pos h2]
      simp [h3, cellRepSum, leadAttrNat, isCellOpen]
      omega
    · have h3 : 0 < fdc := by omega
      simp only [ge_iff_le, if_neg h1, if_neg h2]
      simp [h3, cellRepSum, leadAttrNat, isCellOpen]

theorem coveredRepSum_write_empty_cells (fdc hid : Nat) :
    coveredRepSum (write_empty_cells fdc hid) = min hid (fdc - 1) := by
  unfold write_empty_cells
  by_cases h1 : hid ≥ fdc
  · simp only [ge_iff_le, if_pos h1]
    simp [coveredRepSum, leadAttrNat, isCoveredOpen]
    omega
  · by_cases h2 : hid > 0
    · have h3 : 0 < fdc - hid := by omega
      simp only [ge_iff_le, if_neg h1, if_pos h2]
      simp [h3, coveredRepSum, leadAttrNat, isCoveredOpen]
      omega
    · have h3 : 0 < fdc := by omega
      simp only [ge_iff_le, if_neg h1, if_neg h2]
      simp [h3, coveredRepSum, leadAttrNat, isCoveredOpen]
      omega

theorem write_empty_cells_no_row_tokens (fdc hid : Nat) :
    ∀ e ∈ write_empty_cells fdc hid, isRowOpen e = false ∧ isRowEnd e = false := by
  intro e he
  unfold write_empty_cells at he
  by_cases h1 : hid ≥ fdc
  · simp only [ge_iff_le, if_pos h1] at he
    simp at he
    rcases he with rfl | rfl <;> exact ⟨rfl, rfl⟩
  · by_cases h2 : hid > 0
    · have h3 : 0 < fdc - hid := by omega
      simp only [ge_iff_le, if_neg h1, if_pos h2] at he
      simp [h3] at he
      rcases he with rfl | rfl | rfl | rfl <;> exact ⟨rfl, rfl⟩
    · have h3 : 0 < fdc := by omega
      simp only [ge_iff_le, if_neg h1, if_neg h2] at he
      simp [h3] at he
      rcases he with rfl | rfl <;> exact ⟨rfl, rfl⟩

theorem headNonAttr_write_empty_cells (fdc hid : Nat) :
    headNonAttr (write_empty_cells fdc hid) := by
  unfold write_empty_cells
  by_cases h1 : hid ≥ fdc
  · simp only [ge_iff_le, if_pos h1]
    exact rfl
  · by_cases h2 : hid > 0
    · simp only [ge_iff_le, if_neg h1, if_pos h2]
      exact rfl
    · have h3 : 0 < fdc := by omega
      simp only [ge_iff_le, if_neg h1, if_neg h2, if_pos h3]
      exact rfl

/-! ## Structural facts about `write_empty_rows_before` -/

theorem write_empty_rows_before_scan (sheet : Sheet) (r : Nat) (fc : Bool)
    (dr : Nat) (mc : Nat × Nat) (done : List (List XE)) :
    ∃ segs, rowScanFrom ⟨done, none⟩
        (write_empty_rows_before sheet r fc dr mc) = ⟨done ++ segs, none⟩ ∧
      ∀ seg ∈ segs, cellRepSum seg = mc.2 := by
  have hdropen : ∀ (d : List (List XE)),
      rowScanFrom ⟨d, none⟩ [XE.elem "table:table-header-rows"] = ⟨d, none⟩ :=
    fun d => rowScanFrom_inert_none d _ (by intro e he; simp at he; subst he; decide)
  have hdrclose : ∀ (d : List (List XE)),
      rowScanFrom ⟨d, none⟩ [XE.endElem "table:table-header-rows"] = ⟨d, none⟩ :=
    fun d => rowScanFrom_inert_none d _ (by intro e he; simp at he; subst he; rfl)
  unfold write_empty_rows_before
  by_cases hguard : dr > 1 ∨ (fc = true ∧ dr > 0)
  · rw [if_pos hguard]
    cases hh : sheet.header_rows with
    | none =>
      obtain ⟨seg, hscan, hsum⟩ :=
        write_empty_row_scan sheet (r - dr) (dr - (if fc = true then 0 else 1)) mc done
      refine ⟨[seg], ?_, ?_⟩
      · exact hscan
      · intro sg hsg
        simp at hsg
        subst hsg
        exact hsum
    | some hr =>
      by_cases hc1 : hr.row < r ∧ hr.row > r - dr
      · simp only [if_pos hc1]
        by_cases hc2 : hr.to_row < r ∧ hr.to_row > r - (r - hr.row)
        · simp only [if_pos hc2]
          obtain ⟨s1, hscan1, hsum1⟩ :=
            write_empty_row_scan sheet (r - dr) (hr.row - (r - dr) -
              (if fc = true then 0 else 1)) mc done
          obtain ⟨s2, hscan2, hsum2⟩ :=
            write_empty_row_scan sheet (r - (r - hr.row))
              (hr.to_row - (r - (r - hr.row)) - 0 + 1) mc (done ++ [s1])
          obtain ⟨s3, hscan3, hsum3⟩ :=
            write_empty_row_scan sheet (r - (r - hr.to_row))
              ((r - hr.to_row) - 1) mc ((done ++ [s1]) ++ [s2])
          refine ⟨[s1, s2, s3], ?_, ?_⟩
          · rw [rowScanFrom_append, rowScanFrom_append, rowScanFrom_append,
              rowScanFrom_append, hscan1, hdropen, hscan2, hdrclose, hscan3]
            simp
          · intro sg hsg
            rcases List.mem_cons.1 hsg with rfl | hsg
            · exact hsum1
            · rcases List.mem_cons.1 hsg with rfl | hsg
              · exact hsum2
              · simp at hsg
                subst hsg
                exact hsum3
        · simp only [if_neg hc2]
          obtain ⟨s1, hscan1, hsum1⟩ :=
            write_empty_row_scan sheet (r - dr) (hr.row - (r - dr) -
              (if fc = true then 0 else 1)) mc done
          obtain ⟨s3, hscan3, hsum3⟩ :=
            write_empty_row_scan sheet (r - (r - hr.row))
              ((r - hr.row) - 0) mc (done ++ [s1])
          refine ⟨[s1, s3], ?_, ?_⟩
          · simp only [List.nil_append, List.append_nil]
            rw [rowScanFrom_append, rowScanFrom_append, hscan1, hdropen, hscan3]
            simp
          · intro sg hsg
            rcases List.mem_cons.1 hsg with rfl | hsg
            · exact hsum1
            · simp at hsg
              subst hsg
              exact hsum3
      · simp only [if_neg hc1]
        by_cases hc2 : hr.to_row < r ∧ hr.to_row > r - dr
        · simp only [if_pos hc2]
          obtain ⟨s2, hscan2, hsum2⟩ :=
            write_empty_row_scan sheet (r - dr)
              (hr.to_row - (r - dr) - (if fc = true then 0 else 1) + 1) mc done
          obtain ⟨s3, hscan3, hsum3⟩ :=
            write_empty_row_scan sheet (r - (r - hr.to_row))
              ((r - hr.to_row) - 1) mc (done ++ [s2])
          refine ⟨[s2, s3], ?_, ?_⟩
          · simp only [List.nil_append, List.append_nil]
            rw [rowScanFrom_append, rowScanFrom_append, hscan2, hdrclose, hscan3]
            simp
          · intro sg hsg
            rcases List.mem_cons.1 hsg with rfl | hsg
            · exact hsum2
            · simp at hsg
              subst hsg
              exact hsum3
        · simp only [if_neg hc2]
          obtain ⟨s3, hscan3, hsum3⟩ :=
            write_empty_row_scan sheet (r - dr)
              (dr - (if fc = true then 0 else 1)) mc done
          refine ⟨[s3], ?_, ?_⟩
          · simpa using hscan3
          · intro sg hsg
            simp at hsg
            subst hsg
            exact hsum3
  · rw [if_neg hguard]
    exact ⟨[], by simp [rowScanFrom], by simp⟩

theorem write_empty_rows_before_sum (sheet : Sheet) (r : Nat) (fc : Bool)
    (dr : Nat) (mc : Nat × Nat) (hdr : dr ≤ r) :
    sumAttrNat "table:number-rows-repeated"
        (write_empty_rows_before sheet r fc dr mc) =
      if dr > 1 ∨ (fc = true ∧ dr > 0) then dr - (if fc = true then 0 else 1)
      else 0 := by
  have hbr1 : sumAttrNat "table:number-rows-repeated"
      [XE.elem "table:table-header-rows"] = 0 := rfl
  have hbr2 : sumAttrNat "table:number-rows-repeated"
      [XE.endElem "table:table-header-rows"] = 0 := rfl
  unfold write_empty_rows_before
  by_cases hguard : dr > 1 ∨ (fc = true ∧ dr > 0)
  · rw [if_pos hguard, if_pos hguard]
    cases hh : sheet.header_rows with
    | none => exact write_empty_row_sum sheet _ _ mc
    | some hr =>
      by_cases hc1 : hr.row < r ∧ hr.row > r - dr
      · simp only [if_pos hc1]
        by_cases hc2 : hr.to_row < r ∧ hr.to_row > r - (r - hr.row)
        · simp only [if_pos hc2]
          rw [sumAttrNat_append, sumAttrNat_append, sumAttrNat_append,
            sumAttrNat_append, write_empty_row_sum, hbr1, write_empty_row_sum,
            hbr2, write_empty_row_sum]
          cases fc <;> simp <;> omega
        · simp only [if_neg hc2]
          rw [sumAttrNat_append, sumAttrNat_append, sumAttrNat_append,
            write_empty_row_sum, hbr1, write_empty_row_sum]
          simp only [sumAttrNat]
          cases fc <;> simp <;> omega
      · simp only [if_neg hc1]
        by_cases hc2 : hr.to_row < r ∧ hr.to_row > r - dr
        · simp only [if_pos hc2]
          rw [sumAttrNat_append, sumAttrNat_append, sumAttrNat_append,
            write_empty_row_sum, hbr2, write_empty_row_sum]
          simp only [sumAttrNat]
          cases fc <;> simp <;> omega
        · simp only [if_neg hc2]
          rw [show (([] : List XE) ++ [] ++
              write_empty_row sheet (r - dr) (dr - if fc = true then 0 else 1) mc) =
              write_empty_row sheet (r - dr) (dr - if fc = true then 0 else 1) mc
            by simp]
          exact write_empty_row_sum sheet _ _ mc
  · rw [if_neg hguard, if_neg hguard]
    rfl

theorem write_empty_rows_before_no_covered (sheet : Sheet) (r : Nat) (fc : Bool)
    (dr : Nat) (mc : Nat × Nat) :
    ∀ e ∈ write_empty_rows_before sheet r fc dr mc, isCoveredOpen e = false := by
  intro e he
  unfold write_empty_rows_before at he
  by_cases hguard : dr > 1 ∨ (fc = true ∧ dr > 0)
  · rw [if_pos hguard] at he
    cases hh : sheet.header_rows with
    | none =>
      rw [hh] at he
      exact write_empty_row_no_covered sheet _ _ mc e he
    | some hr =>
      rw [hh] at he
      by_cases hc1 : hr.row < r ∧ hr.row > r - dr
      · simp only [if_pos hc1] at he
        by_cases hc2 : hr.to_row < r ∧ hr.to_row > r - (r - hr.row)
        · simp only [if_pos hc2] at he
          rcases List.mem_append.1 he with he1 | he1
          · rcases List.mem_append.1 he1 with he2 | he2
            · rcases List.mem_append.1 he2 with he3 | he3
              · exact write_empty_row_no_covered sheet _ _ mc e he3
              · simp at he3; subst he3; rfl
            · rcases List.mem_append.1 he2 with he3 | he3
              · exact write_empty_row_no_covered sheet _ _ mc e he3
              · simp at he3; subst he3; rfl
          · exact write_empty_row_no_covered sheet _ _ mc e he1
        · simp only [if_neg hc2] at he
          rcases List.mem_append.1 he with he1 | he1
          · rcases List.mem_append.1 he1 with he2 | he2
            · rcases List.mem_append.1 he2 with he3 | he3
              · exact write_empty_row_no_covered sheet _ _ mc e he3
              · simp at he3; subst he3; rfl
            · simp at he2
          · exact write_empty_row_no_covered sheet _ _ mc e he1
      · simp only [if_neg hc1] at he
        by_cases hc2 : hr.to_row < r ∧ hr.to_row > r - dr
        · simp only [if_pos hc2] at he
          rcases List.mem_append.1 he with he1 | he1
          · rcases List.mem_append.1 he1 with he2 | he2
            · simp at he2
            · rcases List.mem_append.1 he2 with he3 | he3
              · exact write_empty_row_no_covered sheet _ _ mc e he3
              · simp at he3; subst he3; rfl
          · exact write_empty_row_no_covered sheet _ _ mc e he1
        · simp only [if_neg hc2] at he
          rcases List.mem_append.1 he with he1 | he1
          · rcases List.mem_append.1 he1 with he2 | he2
            · simp at he2
            · simp at he2
          · exact write_empty_row_no_covered sheet _ _ mc e he1
  · rw [if_neg hguard] at he
    simp at he

/-! ## C4, amended: where covered cells can come from -/

/-- C4, amended: covered-cell positions are emitted only where the
coverage query reports them — the queried populated cell itself when
hidden, and exactly `min(run_len, forward_gap − 1)` cells of a forward
filler run; leading row fillers, synthetic empty rows and gap-fill runs
never emit covered cells.  In particular fewer than `R*C − 1` interior
positions of a registered span may be emitted covered. -/
theorem claim_C4_amended (fdc hid : Nat) (book : WorkBookView)
    (cell : CellContentRef) (h : Bool) (sheet : Sheet) (r bdc n dr : Nat)
    (fc : Bool) (mc : Nat × Nat) :
    coveredRepSum (write_empty_cells fdc hid) = min hid (fdc - 1) ∧
    coveredRepSum (write_cell book cell h) = (if h then 1 else 0) ∧
    coveredRepSum (write_start_current_row sheet r bdc) = 0 ∧
    coveredRepSum (write_empty_row sheet r n mc) = 0 ∧
    coveredRepSum (write_empty_rows_before sheet r fc dr mc) = 0 :=
  ⟨coveredRepSum_write_empty_cells fdc hid,
   coveredRepSum_write_cell book cell h,
   coveredRepSum_eq_zero (write_start_current_row_no_covered sheet r bdc),
   coveredRepSum_eq_zero (write_empty_row_no_covered sheet r n mc),
   coveredRepSum_eq_zero (write_empty_rows_before_no_covered sheet r fc dr mc)⟩

/-! ## Row accounting of the encoder loop (C3) -/

theorem synthRS_append (sheet : Sheet) (mc : Nat × Nat) (a b : List SheetAct) :
    syntheticRowRepeatSum sheet mc (a ++ b) =
      syntheticRowRepeatSum sheet mc a + syntheticRowRepeatSum sheet mc b := by
  simp [syntheticRowRepeatSum]

theorem expRC_append (a b : List SheetAct) :
    explicitRowCount (a ++ b) = explicitRowCount a + explicitRowCount b := by
  simp [explicitRowCount, List.countP_append]

theorem row_repeat_one {sheet : Sheet}
    (hrep : ∀ p ∈ sheet.row_header, p.2.rowRepeat = 1) (r : Nat) :
    rowRepeatAt sheet r = 1 := by
  unfold rowRepeatAt
  cases hm : mapGet sheet.row_header r with
  | none => rfl
  | some rh =>
    unfold mapGet at hm
    cases hf : sheet.row_header.find? (fun p => p.1 = r) with
    | none => rw [hf] at hm; simp at hm
    | some p =>
      rw [hf] at hm
      simp at hm
      subst hm
      exact hrep p (List.mem_of_find?_eq_some hf)

theorem synthRS_if_endLast {P : Prop} [Decidable P] (sheet : Sheet)
    (mc : Nat × Nat) (a b : Nat) :
    syntheticRowRepeatSum sheet mc (if P then [SheetAct.endLastRow a b] else []) = 0 := by
  split <;> rfl

theorem synthRS_if_start {P : Prop} [Decidable P] (sheet : Sheet)
    (mc : Nat × Nat) (a b : Nat) :
    syntheticRowRepeatSum sheet mc
      (if P then [SheetAct.startCurrentRow a b] else []) = 0 := by
  split <;> rfl

theorem synthRS_if_emptyCells {P : Prop} [Decidable P] (sheet : Sheet)
    (mc : Nat × Nat) (a b : Nat) :
    syntheticRowRepeatSum sheet mc
      (if P then [SheetAct.emptyCells a b] else []) = 0 := by
  split <;> rfl

theorem synthRS_if_endCur {P : Prop} [Decidable P] (sheet : Sheet)
    (mc : Nat × Nat) (a : Nat) :
    syntheticRowRepeatSum sheet mc
      (if P then [SheetAct.endCurrentRow a] else []) = 0 := by
  split <;> rfl

theorem synthRS_cell (sheet : Sheet) (mc : Nat × Nat) (c : CellContentRef)
    (h : Bool) :
    syntheticRowRepeatSum sheet mc [SheetAct.cellAct c h] = 0 := rfl

theorem synthRS_erb_if {P : Prop} [Decidable P] (sheet : Sheet) (mc : Nat × Nat)
    (r : Nat) (fc : Bool) (d : Nat) :
    syntheticRowRepeatSum sheet mc (if P then [SheetAct.emptyRowsBefore r fc d] else []) =
      if P then sumAttrNat "table:number-rows-repeated"
        (write_empty_rows_before sheet r fc d mc) else 0 := by
  split <;> simp [syntheticRowRepeatSum]

theorem expRC_if_endLast {P : Prop} [Decidable P] (a b : Nat) :
    explicitRowCount (if P then [SheetAct.endLastRow a b] else []) = 0 := by
  split <;> rfl

theorem expRC_if_erb {P : Prop} [Decidable P] (r : Nat) (fc : Bool) (d : Nat) :
    explicitRowCount (if P then [SheetAct.emptyRowsBefore r fc d] else []) = 0 := by
  split <;> rfl

theorem expRC_if_emptyCells {P : Prop} [Decidable P] (a b : Nat) :
    explicitRowCount (if P then [SheetAct.emptyCells a b] else []) = 0 := by
  split <;> rfl

theorem expRC_if_endCur {P : Prop} [Decidable P] (a : Nat) :
    explicitRowCount (if P then [SheetAct.endCurrentRow a] else []) = 0 := by
  split <;> rfl

theorem expRC_cell (c : CellContentRef) (h : Bool) :
    explicitRowCount [SheetAct.cellAct c h] = 0 := rfl

theorem expRC_start_if {P : Prop} [Decidable P] (r bdc : Nat) :
    explicitRowCount (if P then [SheetAct.startCurrentRow r bdc] else []) =
      if P then 1 else 0 := by
  split <;> rfl

/-- RHS target of the row accounting: one past the last populated row,
or the already-accounted base if no cells remain. -/
def lastRowTarget (cells : List ((Nat × Nat) × CellContentRef)) (b : Nat) : Nat :=
  match cells.getLast? with
  | some cl => cl.1.1 + 1
  | none => b

theorem lastRowTarget_nil (b : Nat) : lastRowTarget [] b = b := rfl

theorem lastRowTarget_of_getLast (cells : List ((Nat × Nat) × CellContentRef))
    (b : Nat) (gl : (Nat × Nat) × CellContentRef)
    (h : cells.getLast? = some gl) : lastRowTarget cells b = gl.1.1 + 1 := by
  unfold lastRowTarget
  rw [h]

/-- Row accounting of the encoder loop: the synthetic empty-row repeat
total plus the explicit row count, on top of the rows already accounted
for by the loop state, reaches exactly one past the last populated row —
provided every populated row's repeat count is the default 1. -/
theorem body_rows_account (sheet : Sheet) (mc : Nat × Nat)
    (hrep : ∀ p ∈ sheet.row_header, p.2.rowRepeat = 1) :
    ∀ (cells : List ((Nat × Nat) × CellContentRef)) (fcst : Bool)
      (lr lc : Nat) (sp : List CellRange),
      List.Chain' posLt (cells.map (fun c => c.1)) →
      (fcst = true → lr = 0) →
      (fcst = false → ∀ c ∈ cells.head?, posLt (lr, lc) c.1) →
      syntheticRowRepeatSum sheet mc
          (write_sheet_body sheet mc cells ⟨fcst, lr, 1, lc, sp⟩) +
        explicitRowCount (write_sheet_body sheet mc cells ⟨fcst, lr, 1, lc, sp⟩) +
        (if fcst = true then 0 else lr + 1) =
      lastRowTarget cells (if fcst = true then 0 else lr + 1) := by
  intro cells
  induction cells with
  | nil =>
    intro fcst lr lc sp _ _ _
    simp [write_sheet_body, syntheticRowRepeatSum, explicitRowCount, lastRowTarget]
  | cons c rest ih =>
    intro fcst lr lc sp hchain hfc hnf
    obtain ⟨⟨r, ccol⟩, cdata⟩ := c
    simp only [write_sheet_body]
    rw [synthRS_append, synthRS_append, synthRS_append, synthRS_append,
      synthRS_append, synthRS_append, expRC_append, expRC_append, expRC_append,
      expRC_append, expRC_append, expRC_append]
    rw [synthRS_if_endLast, synthRS_erb_if, synthRS_if_start, synthRS_cell,
      synthRS_if_emptyCells, synthRS_if_endCur, expRC_if_endLast, expRC_if_erb,
      expRC_start_if, expRC_cell, expRC_if_emptyCells, expRC_if_endCur]
    rw [row_repeat_one hrep r]
    have hchain2 := (List.chain'_cons'.1 hchain).2
    cases rest with
    | nil =>
      have hrec : ∀ (sp2 : List CellRange), write_sheet_body sheet mc []
          { first_cell := false, last_r := r, last_r_repeat := 1, last_c := ccol,
            spans := sp2 } = [] := fun _ => rfl
      rw [hrec]
      rw [lastRowTarget_of_getLast [((r, ccol), cdata)] _ ((r, ccol), cdata) rfl]
      simp only [syntheticRowRepeatSum, explicitRowCount, List.map_nil,
        List.sum_nil, List.countP_nil]
      cases fcst with
      | true =>
        have hlr : lr = 0 := hfc rfl
        subst hlr
        by_cases h0 : 0 < r - 0
        · rw [if_pos (show 0 < r - 0 ∧ 1 - 1 < r - 0 from ⟨h0, by omega⟩),
              if_pos (show 0 < r - 0 ∨ (true : Bool) = true from Or.inr rfl)]
          rw [write_empty_rows_before_sum sheet r true (r - 0 - 1 + 1) mc (by omega)]
          have hx : (if r - 0 - 1 + 1 > 1 ∨ ((true : Bool) = true ∧ r - 0 - 1 + 1 > 0)
              then r - 0 - 1 + 1 - (if (true : Bool) = true then 0 else 1)
              else 0) = r - 0 - 1 + 1 := by
            simp
          rw [hx, if_pos (show (true : Bool) = true from rfl)]
          omega
        · rw [if_neg (show ¬(0 < r - 0 ∧ 1 - 1 < r - 0) by rintro ⟨h, -⟩; exact h0 h),
              if_pos (show 0 < r - 0 ∨ (true : Bool) = true from Or.inr rfl),
              if_pos (show (true : Bool) = true from rfl)]
          omega
      | false =>
        have hp := hnf rfl ((r, ccol), cdata) (by simp)
        simp only [posLt] at hp
        rw [if_neg (show ¬((false : Bool) = true) by simp)]
        by_cases h0 : 0 < r - lr
        · rw [if_pos (show 0 < r - lr ∧ 1 - 1 < r - lr from ⟨h0, by omega⟩),
              if_pos (show 0 < r - lr ∨ (false : Bool) = true from Or.inl h0)]
          rw [write_empty_rows_before_sum sheet r false (r - lr - 1 + 1) mc (by omega)]
          have hx : (if r - lr - 1 + 1 > 1 ∨ ((false : Bool) = true ∧ r - lr - 1 + 1 > 0)
              then r - lr - 1 + 1 - (if (false : Bool) = true then 0 else 1)
              else 0) = r - lr - 1 + 1 - 1 := by
            simp only [Bool.false_eq_true, false_and, or_false, if_false]
            split <;> omega
          rw [hx]
          omega
        · rw [if_neg (show ¬(0 < r - lr ∧ 1 - 1 < r - lr) by rintro ⟨h, -⟩; exact h0 h),
              if_neg (show ¬(0 < r - lr ∨ (false : Bool) = true) by
                rintro (h | h)
                · exact h0 h
                · simp at h)]
          omega
    | cons d rest2 =>
      have hd := (List.chain'_cons.1 (by simpa using hchain)).1
      have hih := ih false r ccol
          (spansNext (remove_outlooped sp r ccol)
            (check_hidden (remove_outlooped sp r ccol) r ccol).1 r ccol cdata.span)
        (by simpa using hchain2) (by intro h; cases h)
        (by
          intro _ e he
          simp only [List.head?_cons, Option.mem_def, Option.some_inj] at he
          subst he
          exact hd)
      cases hgl : (d :: rest2).getLast? with
      | none => simp at hgl
      | some gl =>
        rw [lastRowTarget_of_getLast _ _ gl hgl] at hih
        rw [if_neg (show ¬((false : Bool) = true) by simp)] at hih
        rw [lastRowTarget_of_getLast ((((r, ccol), cdata)) :: d :: rest2) _ gl
          (by rw [List.getLast?_cons_cons]; exact hgl)]
        cases fcst with
        | true =>
          have hlr : lr = 0 := hfc rfl
          subst hlr
          by_cases h0 : 0 < r - 0
          · rw [if_pos (show 0 < r - 0 ∧ 1 - 1 < r - 0 from ⟨h0, by omega⟩),
                if_pos (show 0 < r - 0 ∨ (true : Bool) = true from Or.inr rfl)]
            rw [write_empty_rows_before_sum sheet r true (r - 0 - 1 + 1) mc (by omega)]
            have hx : (if r - 0 - 1 + 1 > 1 ∨ ((true : Bool) = true ∧ r - 0 - 1 + 1 > 0)
                then r - 0 - 1 + 1 - (if (true : Bool) = true then 0 else 1)
                else 0) = r - 0 - 1 + 1 := by
              simp
            rw [hx, if_pos (show (true : Bool) = true from rfl)]
            omega
          · rw [if_neg (show ¬(0 < r - 0 ∧ 1 - 1 < r - 0) by
                  rintro ⟨h, -⟩; exact h0 h),
                if_pos (show 0 < r - 0 ∨ (true : Bool) = true from Or.inr rfl),
                if_pos (show (true : Bool) = true from rfl)]
            omega
        | false =>
          have hp := hnf rfl ((r, ccol), cdata) (by simp)
          simp only [posLt] at hp
          rw [if_neg (show ¬((false : Bool) = true) by simp)]
          by_cases h0 : 0 < r - lr
          · rw [if_pos (show 0 < r - lr ∧ 1 - 1 < r - lr from ⟨h0, by omega⟩),
                if_pos (show 0 < r - lr ∨ (false : Bool) = true from Or.inl h0)]
            rw [write_empty_rows_before_sum sheet r false (r - lr - 1 + 1) mc (by omega)]
            have hx : (if r - lr - 1 + 1 > 1 ∨ ((false : Bool) = true ∧ r - lr - 1 + 1 > 0)
                then r - lr - 1 + 1 - (if (false : Bool) = true then 0 else 1)
                else 0) = r - lr - 1 + 1 - 1 := by
              simp only [Bool.false_eq_true, false_and, or_false, if_false]
              split <;> omega
            rw [hx]
            omega
          · rw [if_neg (show ¬(0 < r - lr ∧ 1 - 1 < r - lr) by
                  rintro ⟨h, -⟩; exact h0 h),
                if_neg (show ¬(0 < r - lr ∨ (false : Bool) = true) by
                  rintro (h | h)
                  · exact h0 h
                  · simp at h)]
            omega

instance posLt.instDecidable (a b : Nat × Nat) : Decidable (posLt a b) :=
  inferInstanceAs (Decidable (a.1 < b.1 ∨ (a.1 = b.1 ∧ a.2 < b.2)))

/-- Executable check for `SortedData`. -/
def sortedDataB : List ((Nat × Nat) × CellContentRef) → Bool
  | [] => true
  | [_] => true
  | a :: b :: rest => decide (posLt a.1 b.1) && sortedDataB (b :: rest)

theorem sortedDataB_iff :
    ∀ l : List ((Nat × Nat) × CellContentRef),
      sortedDataB l = true ↔ SortedData l := by
  intro l
  induction l with
  | nil => simp [sortedDataB, SortedData]
  | cons a rest ih =>
    cases rest with
    | nil => simp [sortedDataB, SortedData]
    | cons b rest2 =>
      simp only [sortedDataB, Bool.and_eq_true, decide_eq_true_eq]
      rw [ih]
      unfold SortedData
      rw [List.chain'_cons]

instance SortedData.instDecidable (l : List ((Nat × Nat) × CellContentRef)) :
    Decidable (SortedData l) :=
  decidable_of_iff (sortedDataB l = true) (sortedDataB_iff l)

/-- In a position-ordered cell list, the head's row is at most the last
element's row. -/
theorem row_le_getLast :
    ∀ (l : List ((Nat × Nat) × CellContentRef))
      (c gl : (Nat × Nat) × CellContentRef),
      List.Chain' posLt ((c :: l).map (fun x => x.1)) →
      (c :: l).getLast? = some gl → c.1.1 ≤ gl.1.1 := by
  intro l
  induction l with
  | nil =>
    intro c gl _ hlast
    simp only [List.getLast?_singleton, Option.some_inj] at hlast
    subst hlast
    exact Nat.le_refl _
  | cons d rest ih =>
    intro c gl hchain hlast
    simp only [List.map_cons] at hchain
    have h1 : posLt c.1 d.1 := (List.chain'_cons.1 hchain).1
    rw [List.getLast?_cons_cons] at hlast
    have h2 := ih d gl
      (by simp only [List.map_cons]; exact (List.chain'_cons.1 hchain).2) hlast
    unfold posLt at h1
    omega

/-- For a position-ordered cell list, the running row maximum is decided
by the last element. -/
theorem foldl_rowmax_sorted :
    ∀ (l : List ((Nat × Nat) × CellContentRef)) (a : Nat),
      List.Chain' posLt (l.map (fun x => x.1)) →
      l.foldl (fun m p => max m (p.1.1 + 1)) a =
        (match l.getLast? with
         | some cl => max a (cl.1.1 + 1)
         | none => a) := by
  intro l
  induction l with
  | nil => intro a _; rfl
  | cons c rest ih =>
    intro a hchain
    simp only [List.foldl_cons]
    have htail : List.Chain' posLt (rest.map (fun x => x.1)) := by
      simp only [List.map_cons] at hchain
      exact (List.chain'_cons'.1 hchain).2
    rw [ih (max a (c.1.1 + 1)) htail]
    cases rest with
    | nil => rfl
    | cons d rest2 =>
      cases hgl : (d :: rest2).getLast? with
      | none => simp at hgl
      | some gl =>
        rw [List.getLast?_cons_cons, hgl]
        show max (max a (c.1.1 + 1)) (gl.1.1 + 1) = max a (gl.1.1 + 1)
        have hle : c.1.1 ≤ gl.1.1 := row_le_getLast (d :: rest2) c gl
          (by exact hchain) (by rw [List.getLast?_cons_cons]; exact hgl)
        omega

/-! ## Row-structure scan of the full encoder loop (C2) -/

theorem rowScanFrom_nil (s : RowScan) : rowScanFrom s [] = s := rfl

theorem flatMap_if {P : Prop} [Decidable P] (a : SheetAct)
    (f : SheetAct → List XE) :
    (if P then [a] else []).flatMap f = if P then f a else [] := by
  split <;> simp

theorem nextOf_nil (mc : Nat × Nat) : nextOf mc [] = (mc.1, mc.2, true) := rfl

theorem nextOf_cons (mc : Nat × Nat) (d : (Nat × Nat) × CellContentRef)
    (t : List ((Nat × Nat) × CellContentRef)) :
    nextOf mc (d :: t) = (d.1.1, d.1.2, false) := by
  obtain ⟨⟨a, b⟩, cd⟩ := d
  rfl

theorem werb_if_scan {P : Prop} [Decidable P] (sheet : Sheet) (r : Nat)
    (fc : Bool) (dr : Nat) (mc : Nat × Nat) (done : List (List XE)) :
    ∃ segs, rowScanFrom ⟨done, none⟩
        (if P then write_empty_rows_before sheet r fc dr mc else []) =
        ⟨done ++ segs, none⟩ ∧ ∀ seg ∈ segs, cellRepSum seg = mc.2 := by
  by_cases h : P
  · rw [if_pos h]
    exact write_empty_rows_before_scan sheet r fc dr mc done
  · rw [if_neg h]
    exact ⟨[], by simp [rowScanFrom], by simp⟩

theorem wec_if_scan {P : Prop} [Decidable P] (fdc hid : Nat)
    (done : List (List XE)) (body : List XE) :
    rowScanFrom ⟨done, some body⟩
        (if P then write_empty_cells fdc hid else []) =
      ⟨done, some (body ++ (if P then write_empty_cells fdc hid else []))⟩ := by
  by_cases h : P
  · rw [if_pos h]
    exact rowScanFrom_inert_some done _ body (write_empty_cells_no_row_tokens fdc hid)
  · rw [if_neg h]
    simp [rowScanFrom]

theorem wecr_if_scan {P : Prop} [Decidable P] (sheet : Sheet) (r : Nat)
    (done : List (List XE)) (body : List XE) :
    rowScanFrom ⟨done, some body⟩
        (if P then write_end_current_row sheet r else []) =
      ⟨done ++ (if P then [body] else []),
       if P then none else some body⟩ := by
  by_cases h : P
  · simp only [if_pos h]
    exact write_end_current_row_scan sheet r done body
  · simp only [if_neg h]
    simp [rowScanFrom]

theorem cellRepSum_write_cell_alone (book : WorkBookView)
    (cell : CellContentRef) (hid : Bool) :
    cellRepSum (write_cell book cell hid) = 1 := by
  have h := cellRepSum_write_cell book cell hid [] trivial
  simpa using h

theorem cellRepSum_body_wec {P : Prop} [Decidable P] (fdc hid : Nat)
    (b : List XE) :
    cellRepSum (b ++ (if P then write_empty_cells fdc hid else [])) =
      cellRepSum b + (if P then fdc - 1 else 0) := by
  by_cases h : P
  · rw [if_pos h,
      cellRepSum_append _ _ (headNonAttr_write_empty_cells fdc hid),
      cellRepSum_write_empty_cells, if_pos h]
  · rw [if_neg h, if_neg h]
    simp [cellRepSum]

theorem foldl_max_init_le (f : ((Nat × Nat) × CellContentRef) → Nat) :
    ∀ (l : List ((Nat × Nat) × CellContentRef)) (a : Nat),
      a ≤ l.foldl (fun m p => max m (f p)) a := by
  intro l
  induction l with
  | nil => intro a; exact Nat.le_refl a
  | cons c t ih =>
    intro a
    simp only [List.foldl_cons]
    exact Nat.le_trans (Nat.le_max_left a (f c)) (ih (max a (f c)))

theorem mem_le_foldl_max (f : ((Nat × Nat) × CellContentRef) → Nat) :
    ∀ (l : List ((Nat × Nat) × CellContentRef)) (a : Nat)
      (x : (Nat × Nat) × CellContentRef), x ∈ l →
      f x ≤ l.foldl (fun m p => max m (f p)) a := by
  intro l
  induction l with
  | nil => intro a x hx; cases hx
  | cons c t ih =>
    intro a x hx
    simp only [List.foldl_cons]
    rcases List.mem_cons.1 hx with rfl | hx2
    · exact Nat.le_trans (Nat.le_max_right a (f x)) (foldl_max_init_le f t _)
    · exact ih _ x hx2

/-- Stage one of a loop iteration: the conditional row close, the
synthetic gap rows, and the conditional row open leave the scanner
inside an open row whose backward filler covers the current column. -/
theorem stageA_scan (sheet : Sheet) (mc : Nat × Nat)
    (r c lr lrr lc : Nat) (fcst : Bool) (done : List (List XE))
    (cur : Option (List XE))
    (hfc0 : fcst = true → lr = 0 ∧ lc = 0)
    (hcn : fcst = true → cur = none)
    (hcs : fcst = false → ∃ body, cur = some body ∧
      cellRepSum body = (if r = lr then c else mc.2))
    (hpos : fcst = false → posLt (lr, lc) (r, c)) :
    ∃ segs body,
      (∀ TAIL : List XE, rowScanFrom ⟨done, cur⟩
        ((if r - lr > 0 ∧ fcst = false then
            write_end_last_row sheet r (r - lr) else []) ++
         ((if r - lr > 0 ∧ lrr - 1 < r - lr then
             write_empty_rows_before sheet r fcst (r - lr - lrr + 1) mc
           else []) ++
          ((if r - lr > 0 ∨ fcst = true then
              write_start_current_row sheet r (if r - lr ≥ 1 then c else c - lc)
            else []) ++
           TAIL))) =
        rowScanFrom ⟨done ++ segs, some body⟩ TAIL) ∧
      (∀ seg ∈ segs, cellRepSum seg = mc.2) ∧ cellRepSum body = c := by
  cases fcst with
  | true =>
    obtain ⟨hlr, hlc⟩ := hfc0 rfl
    subst hlr
    subst hlc
    have hcur := hcn rfl
    subst hcur
    obtain ⟨segs2, hscan2, hsum2⟩ := werb_if_scan
      (P := r - 0 > 0 ∧ lrr - 1 < r - 0) sheet r true (r - 0 - lrr + 1) mc done
    obtain ⟨body3, hscan3, hsum3⟩ := write_start_current_row_scan sheet r
      (if r - 0 ≥ 1 then c else c - 0) (done ++ segs2)
    refine ⟨segs2, body3, ?_, hsum2, ?_⟩
    · intro TAIL
      rw [rowScanFrom_append, rowScanFrom_append, rowScanFrom_append]
      rw [if_neg (show ¬(r - 0 > 0 ∧ (true : Bool) = false) from by
        rintro ⟨-, h⟩; cases h)]
      rw [rowScanFrom_nil, hscan2]
      rw [if_pos (Or.inr rfl : r - 0 > 0 ∨ (true : Bool) = true)]
      rw [hscan3]
    · rw [hsum3]
      split <;> omega
  | false =>
    obtain ⟨body, hcur, hbsum⟩ := hcs rfl
    subst hcur
    have hp := hpos rfl
    simp only [posLt] at hp
    by_cases hbdr : r - lr > 0
    · have hbm : cellRepSum body = mc.2 := by
        rw [hbsum, if_neg (by omega)]
      obtain ⟨segs2, hscan2, hsum2⟩ := werb_if_scan
        (P := r - lr > 0 ∧ lrr - 1 < r - lr) sheet r false (r - lr - lrr + 1) mc
        (done ++ [body])
      obtain ⟨body3, hscan3, hsum3⟩ := write_start_current_row_scan sheet r
        (if r - lr ≥ 1 then c else c - lc) ((done ++ [body]) ++ segs2)
      refine ⟨[body] ++ segs2, body3, ?_, ?_, ?_⟩
      · intro TAIL
        rw [rowScanFrom_append, rowScanFrom_append, rowScanFrom_append]
        rw [if_pos (⟨hbdr, rfl⟩ : r - lr > 0 ∧ (false : Bool) = false)]
        rw [write_end_last_row_scan sheet r (r - lr) done body]
        rw [hscan2]
        rw [if_pos (Or.inl hbdr : r - lr > 0 ∨ (false : Bool) = true)]
        rw [hscan3, List.append_assoc]
      · intro seg hseg
        rcases List.mem_append.1 hseg with h | h
        · rw [List.mem_singleton.1 h]
          exact hbm
        · exact hsum2 seg h
      · rw [hsum3]
        split <;> omega
    · have heq : r = lr := by omega
      refine ⟨[], body, ?_, by simp, ?_⟩
      · intro TAIL
        rw [rowScanFrom_append, rowScanFrom_append, rowScanFrom_append]
        rw [if_neg (show ¬(r - lr > 0 ∧ (false : Bool) = false) from by
          rintro ⟨h, -⟩; exact hbdr h)]
        rw [rowScanFrom_nil]
        rw [if_neg (show ¬(r - lr > 0 ∧ lrr - 1 < r - lr) from by
          rintro ⟨h, -⟩; exact hbdr h)]
        rw [rowScanFrom_nil]
        rw [if_neg (show ¬(r - lr > 0 ∨ (false : Bool) = true) from by
          rintro (h | h)
          · exact hbdr h
          · cases h)]
        rw [rowScanFrom_nil, List.append_nil]
      · rw [hbsum, if_pos heq]

/-- Stage two of a loop iteration: the cell write and the conditional
forward filler extend the open row body by the cell's single column and
the filler's coverage. -/
theorem stageB_scan (book : WorkBookView) (cell : CellContentRef) (hid : Bool)
    {P : Prop} [Decidable P] (fdc hid2 : Nat) (done : List (List XE))
    (body : List XE) :
    ∃ body2,
      (∀ TAIL : List XE, rowScanFrom ⟨done, some body⟩
          (write_cell book cell hid ++
            ((if P then write_empty_cells fdc hid2 else []) ++ TAIL)) =
        rowScanFrom ⟨done, some body2⟩ TAIL) ∧
      cellRepSum body2 = cellRepSum body + 1 + (if P then fdc - 1 else 0) := by
  refine ⟨(body ++ write_cell book cell hid) ++
    (if P then write_empty_cells fdc hid2 else []), ?_, ?_⟩
  · intro TAIL
    rw [rowScanFrom_append,
      rowScanFrom_inert_some done _ body (write_cell_no_row_tokens book cell hid),
      rowScanFrom_append, wec_if_scan]
  · rw [cellRepSum_body_wec,
      cellRepSum_append _ _ (headNonAttr_write_cell book cell hid),
      cellRepSum_write_cell_alone]

/-- The row-structure account of the encoder loop: from a consistent
cursor state, the rendered loop events close every opened row, and every
closed row's cell children cover exactly `max_col` grid columns. -/
theorem body_rows_scan (book : WorkBookView) (sheet : Sheet) (mc : Nat × Nat) :
    ∀ (cells : List ((Nat × Nat) × CellContentRef)) (fcst : Bool)
      (lr lrr lc : Nat) (sp : List CellRange) (done : List (List XE))
      (cur : Option (List XE)),
      List.Chain' posLt (cells.map (fun x => x.1)) →
      (∀ cl ∈ cells, cl.1.1 + 1 ≤ mc.1 ∧ cl.1.2 + 1 ≤ mc.2) →
      (fcst = true → lr = 0 ∧ lc = 0) →
      (fcst = true → cur = none) →
      (fcst = false → ∀ hd ∈ cells.head?, ∃ body, cur = some body ∧
        cellRepSum body = (if hd.1.1 = lr then hd.1.2 else mc.2)) →
      (cells = [] → cur = none) →
      (fcst = false → ∀ hd ∈ cells.head?, posLt (lr, lc) hd.1) →
      ∃ segs, rowScanFrom ⟨done, cur⟩
          ((write_sheet_body sheet mc cells ⟨fcst, lr, lrr, lc, sp⟩).flatMap
            (renderAct book sheet mc)) = ⟨done ++ segs, none⟩ ∧
        ∀ seg ∈ segs, cellRepSum seg = mc.2 := by
  intro cells
  induction cells with
  | nil =>
    intro fcst lr lrr lc sp done cur _ _ _ _ _ hnil _
    refine ⟨[], ?_, by simp⟩
    rw [hnil rfl]
    simp [write_sheet_body, rowScanFrom]
  | cons c rest ih =>
    intro fcst lr lrr lc sp done cur hchain hbnd hfc0 hcn hcs hnil hpos
    obtain ⟨⟨r, ccol⟩, cdata⟩ := c
    simp only [List.map_cons] at hchain
    have hcb : ccol + 1 ≤ mc.2 := (hbnd ((r, ccol), cdata) (by simp)).2
    simp only [write_sheet_body, List.flatMap_append, List.flatMap_cons,
      List.flatMap_nil, List.append_nil, flatMap_if, renderAct,
      List.append_assoc]
    obtain ⟨segsA, bodyA, hA, hsegsA, hbodyA⟩ := stageA_scan sheet mc r ccol lr
      lrr lc fcst done cur hfc0 hcn
      (fun hf => by
        obtain ⟨body, hb, hs⟩ := hcs hf ((r, ccol), cdata) rfl
        exact ⟨body, hb, hs⟩)
      (fun hf => hpos hf ((r, ccol), cdata) rfl)
    rw [hA]
    obtain ⟨body2, hB, hb2sum⟩ := @stageB_scan book cdata
      ((check_hidden (remove_outlooped sp r ccol) r ccol).1)
      ((if (nextOf mc rest).1 - r ≥ 1 then mc.2 - ccol
        else (nextOf mc rest).2.1 - ccol) > 1) _
      ((if (nextOf mc rest).1 - r ≥ 1 then mc.2 - ccol
        else (nextOf mc rest).2.1 - ccol))
      ((check_hidden (remove_outlooped sp r ccol) r ccol).2)
      (done ++ segsA) bodyA
    rw [hB]
    rw [hbodyA] at hb2sum
    rw [rowScanFrom_append, wecr_if_scan]
    cases rest with
    | nil =>
      rw [nextOf_nil] at hb2sum ⊢
      rw [show ((mc.1, mc.2, true) : Nat × Nat × Bool).1 = mc.1 from rfl,
        show ((mc.1, mc.2, true) : Nat × Nat × Bool).2.1 = mc.2 from rfl]
        at hb2sum
      rw [ite_self] at hb2sum
      rw [show ((mc.1, mc.2, true) : Nat × Nat × Bool).2.2 = true from rfl]
      rw [if_pos (rfl : (true : Bool) = true),
        if_pos (rfl : (true : Bool) = true)]
      simp only [write_sheet_body, List.flatMap_nil, rowScanFrom_nil]
      refine ⟨segsA ++ [body2], ?_, ?_⟩
      · rw [List.append_assoc]
      · intro seg hseg
        rcases List.mem_append.1 hseg with h | h
        · exact hsegsA seg h
        · rw [List.mem_singleton.1 h, hb2sum]
          split <;> omega
    | cons d rest2 =>
      rw [nextOf_cons] at hb2sum ⊢
      rw [show ((d.1.1, d.1.2, false) : Nat × Nat × Bool).1 = d.1.1 from rfl,
        show ((d.1.1, d.1.2, false) : Nat × Nat × Bool).2.1 = d.1.2 from rfl]
        at hb2sum
      rw [show ((d.1.1, d.1.2, false) : Nat × Nat × Bool).2.2 = false from rfl]
      rw [if_neg (show ¬((false : Bool) = true) from by simp)]
      rw [if_neg (show ¬((false : Bool) = true) from by simp)]
      rw [List.append_nil]
      have hdp := (List.chain'_cons.1 hchain).1
      have hdp2 := hdp
      simp only [posLt] at hdp2
      have hsum2 : cellRepSum body2 =
          (if d.1.1 = r then d.1.2 else mc.2) := by
        by_cases hfw : d.1.1 - r ≥ 1
        · rw [if_neg (show ¬(d.1.1 = r) from by omega)]
          rw [hb2sum, if_pos hfw]
          split <;> omega
        · rw [if_pos (show d.1.1 = r from by omega)]
          rw [hb2sum, if_neg hfw]
          split <;> omega
      obtain ⟨segsR, hR, hsegsR⟩ := ih false r (rowRepeatAt sheet r) ccol
        (spansNext (remove_outlooped sp r ccol)
          (check_hidden (remove_outlooped sp r ccol) r ccol).1 r ccol cdata.span)
        (done ++ segsA) (some body2)
        (by
          simp only [List.map_cons]
          exact (List.chain'_cons'.1 hchain).2)
        (fun cl hcl => hbnd cl (List.mem_cons_of_mem _ hcl))
        (by intro h; cases h)
        (by intro h; cases h)
        (by
          intro _ hd hhd
          simp only [List.head?_cons, Option.mem_def, Option.some_inj] at hhd
          subst hhd
          exact ⟨body2, rfl, hsum2⟩)
        (by intro h; cases h)
        (by
          intro _ hd hhd
          simp only [List.head?_cons, Option.mem_def, Option.some_inj] at hhd
          subst hhd
          exact hdp)
      rw [hR]
      refine ⟨segsA ++ segsR, ?_, ?_⟩
      · rw [List.append_assoc]
      · intro seg hseg
        rcases List.mem_append.1 hseg with h | h
        · exact hsegsA seg h
        · exact hsegsR seg h

theorem xmlTag_map_no_row_open (l : List XmlTag) :
    ∀ e ∈ l.map XE.xmlTag, isRowOpen e = false := by
  intro e he
  obtain ⟨t, -, rfl⟩ := List.mem_map.1 he
  rfl

theorem styleAttrs_no_row_open (sheet : Sheet) :
    ∀ e ∈ styleAttrs sheet, isRowOpen e = false := by
  intro e he
  unfold styleAttrs at he
  cases hs : sheet.style with
  | none => rw [hs] at he; simp at he
  | some st =>
    rw [hs] at he
    simp at he
    subst he
    rfl

theorem printRangesAttrs_no_row_open (sheet : Sheet) :
    ∀ e ∈ printRangesAttrs sheet, isRowOpen e = false := by
  intro e he
  unfold printRangesAttrs at he
  cases hs : sheet.print_ranges with
  | none => rw [hs] at he; simp at he
  | some pr =>
    rw [hs] at he
    simp at he
    subst he
    rfl

theorem attr_if_no_row_open {P : Prop} [Decidable P] (n v : String) :
    ∀ e ∈ (if P then [XE.attr n v] else []), isRowOpen e = false := by
  intro e he
  split at he
  · simp at he
    subst he
    rfl
  · simp at he

theorem write_table_columns_no_row_open (sheet : Sheet) (mc : Nat × Nat) :
    ∀ e ∈ write_table_columns sheet mc, isRowOpen e = false := by
  intro e he
  unfold write_table_columns at he
  obtain ⟨cidx, -, hmem⟩ := List.mem_flatMap.1 he
  rcases List.mem_append.1 hmem with h1 | h1
  · rcases List.mem_append.1 h1 with h2 | h2
    · rcases List.mem_append.1 h2 with h3 | h3
      · split at h3
        · split at h3
          · simp at h3
            subst h3
            decide
          · simp at h3
        · simp at h3
      · simp at h3
        subst h3
        rfl
    · split at h2
      · rcases List.mem_append.1 h2 with h3 | h3
        · rcases List.mem_append.1 h3 with h4 | h4
          · split at h4
            · simp at h4
              subst h4
              rfl
            · simp at h4
          · split at h4
            · simp at h4
              subst h4
              rfl
            · simp at h4
        · split at h3
          · simp at h3
            subst h3
            rfl
          · simp at h3
      · simp at h2
  · split at h1
    · split at h1
      · simp at h1
        subst h1
        rfl
      · simp at h1
    · simp at h1

/-! ### `sync` (`write.rs` 98–220)

The workbook-mutation pass that `write_ods_impl` runs before any sheet
content is written. Collaborator types (metadata, the config tree, the
style store) live in sibling modules and are modelled from the spec;
the control flow below is translated from `sync` itself. -/

/-- Modelled from the spec: a config value (string, boolean or numeric
scalar). -/
inductive CfgVal where
  | vs (v : String)
  | vb (v : Bool)
  | vn (v : Nat)
deriving DecidableEq

/-- Modelled from the spec: one `create_path … insert` into the config
tree, recorded as (path, key, value). -/
def CfgEntry : Type := List String × String × CfgVal

instance : DecidableEq CfgEntry :=
  inferInstanceAs (DecidableEq (List String × String × CfgVal))

def view0Path : List String := ["ooo:view-settings", "Views", "0"]

def tablePath (name : String) : List String :=
  ["ooo:view-settings", "Views", "0", "Tables", name]

def scriptPath (name : String) : List String :=
  ["ooo:configuration-settings", "ScriptConfiguration", name]

/-- Modelled from the spec: the document statistics block of the
metadata. -/
structure DocumentStatistics where
  table_count : Nat
  cell_count : Nat
deriving DecidableEq

/-- Modelled from the spec: the metadata fields `sync` touches; dates
are opaque timestamps. -/
structure Metadata where
  generator : String
  creation_date : Option Nat
  date : Option Nat
  editing_cycles : Nat
  document_statistics : DocumentStatistics
deriving DecidableEq

/-- Modelled from the spec: the workbook-level view configuration
(`book.config()`). -/
structure BookConfig where
  active_table : String
  has_sheet_tabs : Bool
  show_grid : Bool
  show_page_breaks : Bool
deriving DecidableEq

/-- Modelled from the spec: the column-style fields `sync` writes. -/
structure ColStyleS where
  col_width : Length
  use_optimal_col_width : Bool
deriving DecidableEq

/-- Modelled from the spec: the row-style fields `sync` writes. -/
structure RowStyleS where
  row_height : Length
  use_optimal_row_height : Bool
deriving DecidableEq

/-- Modelled from the spec: the generated name of a freshly added
column style (`add_colstyle`), driven by a counter. -/
def newColStyleName (n : Nat) : String := "co" ++ toString n

/-- Modelled from the spec: the generated name of a freshly added row
style (`add_rowstyle`). -/
def newRowStyleName (n : Nat) : String := "ro" ++ toString n

/-- The workbook slice `sync` operates on: metadata, view config, the
detached config tree (as its insertion list), sheets and the style
store with the name counters. -/
structure WorkBook where
  metadata : Metadata
  config : BookConfig
  cfgtree : List CfgEntry
  sheets : List Sheet
  colstyles : List (String × ColStyleS)
  rowstyles : List (String × RowStyleS)
  autoc : Nat
  autor : Nat

/-- The column-width write-back loop of `sync` (`write.rs` 140–163):
headers with a non-default width get a fresh style if they have none,
then the width is copied into the (possibly fresh) style. -/
def syncColHeaders :
    List (Nat × ColHeader) → List (String × ColStyleS) → Nat →
      List (Nat × ColHeader) × List (String × ColStyleS) × Nat
  | [], styles, auto => ([], styles, auto)
  | (i, ch) :: rest, styles, auto =>
    let step1 :=
      if ch.width ≠ Length.default ∧ ch.style = none then
        ({ ch with style := some (newColStyleName auto) },
         styles ++ [(newColStyleName auto, ⟨Length.default, false⟩)], auto + 1)
      else (ch, styles, auto)
    let ch1 := step1.1
    let styles1 := step1.2.1
    let auto1 := step1.2.2
    let styles2 :=
      match ch1.style with
      | some sn =>
        styles1.map (fun p =>
          if p.1 = sn then
            (p.1,
             if ch1.width = Length.default then
               (⟨Length.default, true⟩ : ColStyleS)
             else ⟨ch1.width, p.2.use_optimal_col_width⟩)
          else p)
      | none => styles1
    let rec1 := syncColHeaders rest styles2 auto1
    ((i, ch1) :: rec1.1, rec1.2.1, rec1.2.2)

/-- The row-height write-back loop of `sync` (`write.rs` 165–182). -/
def syncRowHeaders :
    List (Nat × RowHeader) → List (String × RowStyleS) → Nat →
      List (Nat × RowHeader) × List (String × RowStyleS) × Nat
  | [], styles, auto => ([], styles, auto)
  | (i, rh) :: rest, styles, auto =>
    let step1 :=
      if rh.height ≠ Length.default ∧ rh.style = none then
        ({ rh with style := some (newRowStyleName auto) },
         styles ++ [(newRowStyleName auto, ⟨Length.default, false⟩)], auto + 1)
      else (rh, styles, auto)
    let rh1 := step1.1
    let styles1 := step1.2.1
    let auto1 := step1.2.2
    let styles2 :=
      match rh1.style with
      | some sn =>
        styles1.map (fun p =>
          if p.1 = sn then
            (p.1,
             if rh1.height = Length.default then
               (⟨Length.default, true⟩ : RowStyleS)
             else ⟨rh1.height, p.2.use_optimal_row_height⟩)
          else p)
      | none => styles1
    let rec1 := syncRowHeaders rest styles2 auto1
    ((i, rh1) :: rec1.1, rec1.2.1, rec1.2.2)

/-- The per-sheet config entries of `sync` (`write.rs` 184–215): the
sheet's view settings under its `Tables` entry, then the
`ScriptConfiguration` code name. -/
def sheetCfgEntries (s : Sheet) : List CfgEntry :=
  [(tablePath s.name, "CursorPositionX", CfgVal.vn s.config.cursor_x),
   (tablePath s.name, "CursorPositionY", CfgVal.vn s.config.cursor_y),
   (tablePath s.name, "HorizontalSplitMode", CfgVal.vn s.config.hor_split_mode),
   (tablePath s.name, "VerticalSplitMode", CfgVal.vn s.config.vert_split_mode),
   (tablePath s.name, "HorizontalSplitPosition", CfgVal.vn s.config.hor_split_pos),
   (tablePath s.name, "VerticalSplitPosition", CfgVal.vn s.config.vert_split_pos),
   (tablePath s.name, "ActiveSplitRange", CfgVal.vn s.config.active_split_range),
   (tablePath s.name, "PositionLeft", CfgVal.vn s.config.position_left),
   (tablePath s.name, "PositionRight", CfgVal.vn s.config.position_right),
   (tablePath s.name, "PositionTop", CfgVal.vn s.config.position_top),
   (tablePath s.name, "PositionBottom", CfgVal.vn s.config.position_bottom),
   (tablePath s.name, "ZoomType", CfgVal.vn s.config.zoom_type),
   (tablePath s.name, "ZoomValue", CfgVal.vn s.config.zoom_value),
   (tablePath s.name, "PageViewZoomValue", CfgVal.vn s.config.page_view_zoom_value),
   (tablePath s.name, "ShowGrid", CfgVal.vb s.config.show_grid),
   (scriptPath s.name, "CodeName", CfgVal.vs s.name)]

/-- The detach/mutate/attach sheet loop of `sync` (`write.rs` 137–217),
threading the style store, the name counters and the config insertions
across sheets. -/
def syncSheets :
    List Sheet → List (String × ColStyleS) → List (String × RowStyleS) →
      Nat → Nat →
      List Sheet × List (String × ColStyleS) × List (String × RowStyleS) ×
        Nat × Nat × List CfgEntry
  | [], cs, rs, ac, ar => ([], cs, rs, ac, ar, [])
  | s :: rest, cs, rs, ac, ar =>
    let c3 := syncColHeaders s.col_header cs ac
    let r3 := syncRowHeaders s.row_header rs ar
    let s1 := { s with col_header := c3.1, row_header := r3.1 }
    let rec1 := syncSheets rest c3.2.1 r3.2.1 c3.2.2 r3.2.2
    (s1 :: rec1.1, rec1.2.1, rec1.2.2.1, rec1.2.2.2.1, rec1.2.2.2.2.1,
     sheetCfgEntries s1 ++ rec1.2.2.2.2.2)

/-- `sync` (`write.rs` 98–220): overwrite the generator, default the
dates to now, raise zero editing cycles to 1, recompute the document
statistics, set the active table, insert the view-settings and
per-sheet config entries, and write the heights/widths back to styles.
`none` models the source's panic when the active-table fallback indexes
an empty sheet list. -/
def sync (book : WorkBook) (now : Nat) : Option WorkBook :=
  let md := book.metadata
  let md1 : Metadata :=
    { md with
      generator := "spreadsheet-ods 0.17.0",
      creation_date :=
        match md.creation_date with
        | none => some now
        | some d => some d,
      date :=
        match md.date with
        | none => some now
        | some d => some d,
      editing_cycles :=
        if md.editing_cycles = 0 then 1 else md.editing_cycles,
      document_statistics :=
        { table_count := book.sheets.length,
          cell_count := (book.sheets.map (fun s => s.data.length)).sum } }
  let activeOpt :=
    if book.config.active_table = "" then
      book.sheets.head?.map (fun s => s.name)
    else some book.config.active_table
  match activeOpt with
  | none => none
  | some act =>
    let viewEntries : List CfgEntry :=
      [(view0Path, "ActiveTable", CfgVal.vs act),
       (view0Path, "HasSheetTabs", CfgVal.vb book.config.has_sheet_tabs),
       (view0Path, "ShowGrid", CfgVal.vb book.config.show_grid),
       (view0Path, "ShowPageBreaks", CfgVal.vb book.config.show_page_breaks)]
    let r6 := syncSheets book.sheets book.colstyles book.rowstyles
      book.autoc book.autor
    some { book with
      metadata := md1,
      config := { book.config with active_table := act },
      cfgtree := book.cfgtree ++ viewEntries ++ r6.2.2.2.2.2,
      sheets := r6.1,
      colstyles := r6.2.1,
      rowstyles := r6.2.2.1,
      autoc := r6.2.2.2.1,
      autor := r6.2.2.2.2.1 }

theorem syncSheets_data :
    ∀ (sheets : List Sheet) (cs : List (String × ColStyleS))
      (rs : List (String × RowStyleS)) (ac ar : Nat),
      ((syncSheets sheets cs rs ac ar).1).map (fun s => s.data) =
        sheets.map (fun s => s.data) := by
  intro sheets
  induction sheets with
  | nil => intro cs rs ac ar; rfl
  | cons s rest ih =>
    intro cs rs ac ar
    simp [syncSheets, ih]

theorem syncSheets_entries :
    ∀ (sheets : List Sheet) (cs : List (String × ColStyleS))
      (rs : List (String × RowStyleS)) (ac ar : Nat) (s : Sheet), s ∈ sheets →
      ((scriptPath s.name, "CodeName", CfgVal.vs s.name) : CfgEntry) ∈
        (syncSheets sheets cs rs ac ar).2.2.2.2.2 ∧
      ((tablePath s.name, "CursorPositionX",
        CfgVal.vn s.config.cursor_x) : CfgEntry) ∈
        (syncSheets sheets cs rs ac ar).2.2.2.2.2 := by
  intro sheets
  induction sheets with
  | nil => intro cs rs ac ar s hs; cases hs
  | cons s0 rest ih =>
    intro cs rs ac ar s hs
    rcases List.mem_cons.1 hs with rfl | hs2
    · constructor
      · exact List.mem_append_left _ (by simp [sheetCfgEntries])
      · exact List.mem_append_left _ (by simp [sheetCfgEntries])
    · obtain ⟨h1, h2⟩ := ih _ _ _ _ s hs2
      exact ⟨List.mem_append_right _ h1, List.mem_append_right _ h2⟩

/-- The claimed effect of `sync`: generator overwritten, dates
defaulted, zero editing cycles raised to 1, statistics recomputed,
per-sheet config entries inserted, and the sheets' cell data untouched. -/
def SyncSpec (book : WorkBook) (now : Nat) (b2 : WorkBook) : Prop :=
  b2.metadata.generator = "spreadsheet-ods 0.17.0" ∧
  b2.metadata.creation_date = book.metadata.creation_date.or (some now) ∧
  b2.metadata.date = book.metadata.date.or (some now) ∧
  b2.metadata.editing_cycles =
    (if book.metadata.editing_cycles = 0 then 1
     else book.metadata.editing_cycles) ∧
  b2.metadata.document_statistics.table_count = book.sheets.length ∧
  b2.metadata.document_statistics.cell_count =
    (book.sheets.map (fun s => s.data.length)).sum ∧
  (∀ s ∈ book.sheets,
    ((scriptPath s.name, "CodeName", CfgVal.vs s.name) : CfgEntry) ∈
      b2.cfgtree ∧
    ((tablePath s.name, "CursorPositionX",
      CfgVal.vn s.config.cursor_x) : CfgEntry) ∈ b2.cfgtree) ∧
  b2.sheets.map (fun s => s.data) = book.sheets.map (fun s => s.data)

/-! ## C1: header-rows bracket placement -/

/-- C1: on the spec's own scenario 4 (header rows 0–1, one cell at
`(5,0)`), the encoder emits the `table:table-header-rows` closing tag
once but never the opening tag: `write_empty_rows_before` only opens the
bracket when the header start lies strictly inside the gap
(`header_rows.row() > last_row`), which fails for a header range starting
at row 0 at the front of the sheet.  The bracket is thus closed without
ever being opened, instead of opening before row 0 and closing after
row 1 as the claim requires. -/
theorem claim_C1 :
    countEv isHeaderRowsOpen (write_sheet noBook sheetScn4) = 0 ∧
    countEv isHeaderRowsClose (write_sheet noBook sheetScn4) = 1 ∧
    ¬(countEv isHeaderRowsOpen (write_sheet noBook sheetScn4) = 1 ∧
      countEv isHeaderRowsClose (write_sheet noBook sheetScn4) = 1) := by
  refine ⟨by decide, by decide, ?_⟩
  rintro ⟨h, -⟩
  revert h
  decide

/-! ## C3, counterexample -/

/-- C3, counterexample: with a populated row 0 declaring `repeat = 2` and
the next populated row at 2, the gap row is already covered by the repeat
count, so no synthetic empty row is emitted; the synthetic repeat total
(0) plus the explicit row count (2) is 2, but `max_row` is 3. -/
theorem claim_C3_counterexample :
    used_grid_size sheetRepeat2 = (3, 1) ∧
    syntheticRowRepeatSum sheetRepeat2 (used_grid_size sheetRepeat2)
      (write_sheet_body sheetRepeat2 (used_grid_size sheetRepeat2)
        sheetRepeat2.data initLoopState) = 0 ∧
    explicitRowCount
      (write_sheet_body sheetRepeat2 (used_grid_size sheetRepeat2)
        sheetRepeat2.data initLoopState) = 2 ∧
    (0 + 2 : Nat) ≠ 3 := by
  refine ⟨by decide, by decide, by decide, by decide⟩

/-- C3, amended: when every populated row's declared repeat count is the
default 1 and the sparse grid is position-ordered, the sum of
`number-rows-repeated` values across the synthetic empty-row elements
plus the count of explicit row elements equals the used row count
`max_row`. -/
theorem claim_C3_amended (sheet : Sheet)
    (hsort : SortedData sheet.data)
    (hrep : ∀ p ∈ sheet.row_header, p.2.rowRepeat = 1) :
    syntheticRowRepeatSum sheet (used_grid_size sheet)
        (write_sheet_body sheet (used_grid_size sheet) sheet.data initLoopState) +
      explicitRowCount
        (write_sheet_body sheet (used_grid_size sheet) sheet.data initLoopState) =
    (used_grid_size sheet).1 := by
  have hchain : List.Chain' posLt (sheet.data.map (fun x => x.1)) :=
    (List.chain'_map (fun x : (Nat × Nat) × CellContentRef => x.1)).mpr hsort
  have hinit : initLoopState = (⟨true, 0, 1, 0, []⟩ : LoopState) := rfl
  rw [hinit]
  have h := body_rows_account sheet (used_grid_size sheet) hrep sheet.data
    true 0 0 [] hchain (fun _ => rfl) (by intro hx; cases hx)
  rw [if_pos (show (true : Bool) = true from rfl)] at h
  have hg : (used_grid_size sheet).1 =
      sheet.data.foldl (fun m p => max m (p.1.1 + 1)) 0 := rfl
  rw [hg]
  cases hdata : sheet.data with
  | nil =>
    rw [hdata] at h
    rw [lastRowTarget_nil] at h
    rw [List.foldl_nil]
    omega
  | cons hd tl =>
    rw [hdata] at h hchain
    cases hgl : (hd :: tl).getLast? with
    | none => simp at hgl
    | some gl =>
      rw [lastRowTarget_of_getLast _ _ gl hgl] at h
      rw [foldl_rowmax_sorted (hd :: tl) 0 hchain]
      rw [hgl]
      show syntheticRowRepeatSum sheet (used_grid_size sheet)
          (write_sheet_body sheet (used_grid_size sheet) (hd :: tl)
            ⟨true, 0, 1, 0, []⟩) +
        explicitRowCount
          (write_sheet_body sheet (used_grid_size sheet) (hd :: tl)
            ⟨true, 0, 1, 0, []⟩) = max 0 (gl.1.1 + 1)
      omega

/-- C3, amended, witness: the amended law evaluated on the concrete gap
sheet (populated rows 1 and 3, used row count 4). -/
theorem claim_C3_amended_witness :
    SortedData sheetGap.data ∧
    (∀ p ∈ sheetGap.row_header, p.2.rowRepeat = 1) ∧
    syntheticRowRepeatSum sheetGap (used_grid_size sheetGap)
        (write_sheet_body sheetGap (used_grid_size sheetGap) sheetGap.data
          initLoopState) +
      explicitRowCount
        (write_sheet_body sheetGap (used_grid_size sheetGap) sheetGap.data
          initLoopState) =
    (used_grid_size sheetGap).1 :=
  ⟨by decide, by decide, claim_C3_amended sheetGap (by decide) (by decide)⟩

/-! ## C2 -/

/-- C2: for every row element emitted for a position-ordered sheet —
explicit rows and synthetic empty rows alike — the row scanner closes
every row it opens, and the sum over the row's cell-child elements of
the `number-columns-repeated` value (1 when absent) equals the used
column count `max_col`. -/
theorem claim_C2 (book : WorkBookView) (sheet : Sheet)
    (hsort : SortedData sheet.data) :
    ∃ segs, rowScan (write_sheet book sheet) = ⟨segs, none⟩ ∧
      ∀ seg ∈ segs, cellRepSum seg = (used_grid_size sheet).2 := by
  have hchain : List.Chain' posLt (sheet.data.map (fun x => x.1)) :=
    (List.chain'_map (fun x : (Nat × Nat) × CellContentRef => x.1)).mpr hsort
  have hbnd : ∀ cl ∈ sheet.data,
      cl.1.1 + 1 ≤ (used_grid_size sheet).1 ∧
      cl.1.2 + 1 ≤ (used_grid_size sheet).2 := by
    intro cl hcl
    exact ⟨mem_le_foldl_max (fun p => p.1.1 + 1) sheet.data 0 cl hcl,
      mem_le_foldl_max (fun p => p.1.2 + 1) sheet.data 0 cl hcl⟩
  obtain ⟨segs, hscan, hsums⟩ := body_rows_scan book sheet (used_grid_size sheet)
    sheet.data true 0 1 0 [] [] none hchain hbnd (fun _ => ⟨rfl, rfl⟩)
    (fun _ => rfl) (by intro h; cases h) (fun _ => rfl)
    (by intro h; cases h)
  refine ⟨segs, ?_, hsums⟩
  unfold rowScan
  simp only [write_sheet, List.append_assoc]
  rw [rowScanFrom_append, rowScanFrom_inert_none [] _ (by
    intro e he
    simp at he
    rcases he with rfl | rfl
    · decide
    · rfl)]
  rw [rowScanFrom_append, rowScanFrom_inert_none [] _ (styleAttrs_no_row_open sheet)]
  rw [rowScanFrom_append,
    rowScanFrom_inert_none [] _ (printRangesAttrs_no_row_open sheet)]
  rw [rowScanFrom_append,
    rowScanFrom_inert_none [] _ (attr_if_no_row_open "table:print" "false")]
  rw [rowScanFrom_append,
    rowScanFrom_inert_none [] _ (attr_if_no_row_open "table:display" "false")]
  rw [rowScanFrom_append, rowScanFrom_inert_none [] _ (by
    intro e he
    unfold prologTags at he
    exact xmlTag_map_no_row_open _ e he)]
  rw [rowScanFrom_append, rowScanFrom_inert_none [] _
    (write_table_columns_no_row_open sheet (used_grid_size sheet))]
  rw [rowScanFrom_append]
  rw [show initLoopState = (⟨true, 0, 1, 0, []⟩ : LoopState) from rfl]
  rw [hscan, List.nil_append]
  rw [rowScanFrom_append, rowScanFrom_inert_none segs _ (by
    intro e he
    simp at he
    subst he
    rfl)]
  rw [rowScanFrom_inert_none segs _ (by
    intro e he
    unfold epilogTags at he
    exact xmlTag_map_no_row_open _ e he)]

/-- C2, witness: the row-coverage law evaluated on the concrete gap
sheet (populated cells `(1,0)` and `(3,1)`, used extent `(4, 2)`). -/
theorem claim_C2_witness :
    SortedData sheetGap.data ∧
    ∃ segs, rowScan (write_sheet noBook sheetGap) = ⟨segs, none⟩ ∧
      ∀ seg ∈ segs, cellRepSum seg = (used_grid_size sheetGap).2 :=
  ⟨by decide, claim_C2 noBook sheetGap (by decide)⟩

/-! ## C9 -/

/-- C9: `sync` mutates the workbook before any sheet content is
written: it overwrites the generator, defaults the two dates to now,
raises zero editing cycles to 1, recomputes table and cell counts,
inserts the per-sheet view-settings and script-configuration entries
into the config tree, and leaves the sheets' cell data unchanged. -/
theorem claim_C9 (book : WorkBook) (now : Nat) (b2 : WorkBook)
    (h : sync book now = some b2) : SyncSpec book now b2 := by
  simp only [sync] at h
  split at h
  · cases h
  · injection h with h2
    subst h2
    refine ⟨rfl, ?_, ?_, rfl, rfl, rfl, ?_, ?_⟩
    · cases hcd : book.metadata.creation_date <;> simp [hcd, Option.or]
    · cases hcd : book.metadata.date <;> simp [hcd, Option.or]
    · intro s hs
      obtain ⟨h1, h2⟩ := syncSheets_entries book.sheets book.colstyles
        book.rowstyles book.autoc book.autor s hs
      exact ⟨List.mem_append_right _ h1, List.mem_append_right _ h2⟩
    · exact syncSheets_data book.sheets book.colstyles book.rowstyles
        book.autoc book.autor

/-- A concrete workbook for the `sync` witness: empty active table (so
the fallback to the first sheet name fires), unset creation date, set
modification date, zero editing cycles, stale statistics. -/
def bookW : WorkBook where
  metadata :=
    { generator := ""
      creation_date := none
      date := some 7
      editing_cycles := 0
      document_statistics := { table_count := 99, cell_count := 99 } }
  config :=
    { active_table := ""
      has_sheet_tabs := true
      show_grid := true
      show_page_breaks := false }
  cfgtree := []
  sheets := [sheetGap]
  colstyles := []
  rowstyles := []
  autoc := 0
  autor := 0

/-- C9, witness: `sync` evaluated on the concrete workbook. -/
theorem claim_C9_witness :
    sync bookW 42 = some ((sync bookW 42).getD bookW) ∧
    SyncSpec bookW 42 ((sync bookW 42).getD bookW) :=
  ⟨rfl, claim_C9 bookW 42 _ rfl⟩

/-! ## C4, counterexample -/

/-- C4, counterexample: the sheet declares a single 2×2 span at origin
`(0,0)` (its span attributes are present in the output), yet zero
positions are emitted as covered-cell elements — not `R*C − 1 = 3`: the
span only registers after the origin row's forward filler was already
emitted, and the wholly-empty row 1 is emitted as a plain filler row. -/
theorem claim_C4_counterexample :
    coveredRepSum (write_sheet noBook sheetSpan22) = 0 ∧
    countEv isColsSpanned2 (write_sheet noBook sheetSpan22) = 1 ∧
    (0 : Nat) ≠ 2 * 2 - 1 := by
  refine ⟨by decide, by decide, by decide⟩

end SpreadsheetOds
